/-
Verification of the RecordStore toolchain (rstool) of the
BiometricEvaluation repository: a shallow embedding, in Lean 4, of the
ordered unique key collection (ordered_set.h), the list-view maintenance
operations (lrs_additions.cpp), the merge and hash-translation pipeline
and the command drivers (rstool.cpp), and the Python iteration shim
(py_recordstore.cpp), together with theorems about the behaviour each
claim of the specification describes.
-/
import Mathlib

set_option maxHeartbeats 1000000

namespace RSTool

/-! ## Ordered unique key collection (ordered_set.h) -/

/-- Insertion strategy of OrderedSet (ordered_set.h lines 29-37). -/
inductive Strategy
  | FASTER
  | SMALLER
deriving DecidableEq, Repr

/-- Shallow embedding of OrderedSet over strings (ordered_set.h): the
element list models the backing std::list (iteration order, size), and
uniqueElements models the companion std::set used, under the FASTER
strategy only, for duplicate checks.  Only membership of the companion
set is ever observed, so it is modelled by the list of its members. -/
structure OrderedSet where
  strategy : Strategy
  elements : List String
  uniqueElements : List String
deriving DecidableEq, Repr

/-- Constructor (ordered_set.h lines 150-158): both containers start
empty; the companion set is allocated only under FASTER, which is
observationally the same as keeping it empty. -/
def OrderedSet.mkEmpty (strategy : Strategy) : OrderedSet :=
  { strategy := strategy, elements := [], uniqueElements := [] }

/-- valueExists (ordered_set.h lines 245-260): FASTER consults the
companion set, SMALLER scans the element list with std::find. -/
def OrderedSet.valueExists (os : OrderedSet) (value : String) : Bool :=
  match os.strategy with
  | .FASTER => decide (value ∈ os.uniqueElements)
  | .SMALLER => decide (value ∈ os.elements)

/-- push_back (ordered_set.h lines 160-183): FASTER inserts into the
companion set and appends to the element list only when the set insert
actually inserted; SMALLER tests valueExists, appending when absent.
The returned Bool is whether the object was inserted. -/
def OrderedSet.push_back (os : OrderedSet) (value : String) :
    OrderedSet × Bool :=
  match os.strategy with
  | .FASTER =>
      if value ∈ os.uniqueElements then (os, false)
      else ({ os with
                uniqueElements := (value :: os.uniqueElements),
                elements := (os.elements ++ [value]) }, true)
  | .SMALLER =>
      if os.valueExists value then (os, false)
      else ({ os with elements := os.elements ++ [value] }, true)

/-- erase by value (ordered_set.h lines 195-205): FASTER additionally
erases the value from the companion set; the element-list update is
std::list remove, which erases every element equal to value. -/
def OrderedSet.erase (os : OrderedSet) (value : String) : OrderedSet :=
  { os with
    uniqueElements :=
      (match os.strategy with
       | .FASTER => os.uniqueElements.filter (fun x => decide (x ≠ value))
       | .SMALLER => os.uniqueElements),
    elements := (os.elements.filter (fun x => decide (x ≠ value))) }

/-- size (ordered_set.h lines 237-243): the element list's length. -/
def OrderedSet.size (os : OrderedSet) : Nat :=
  os.elements.length

/-- States reachable from the constructor: the element list never holds
duplicates, and under the FASTER strategy the companion set holds exactly
the listed elements. -/
def OrderedSet.WF (os : OrderedSet) : Prop :=
  os.elements.Nodup ∧
  (os.strategy = .FASTER →
    (∀ v ∈ os.uniqueElements, v ∈ os.elements) ∧
    (∀ v ∈ os.elements, v ∈ os.uniqueElements))

instance (os : OrderedSet) : Decidable os.WF := by
  unfold OrderedSet.WF; infer_instance

/-! ## Operation sequences over OrderedSet, for the strategy-equivalence
claim. -/

/-- One mutating operation of the OrderedSet interface. -/
inductive SetOp
  | push (v : String)
  | del (v : String)
deriving DecidableEq, Repr

/-- Apply one operation; a push reports the Bool push_back returned. -/
def OrderedSet.applyOp (os : OrderedSet) : SetOp → OrderedSet × Option Bool
  | .push v => let r := os.push_back v; (r.1, some r.2)
  | .del v => (os.erase v, none)

/-- Run a sequence of operations from a given state, collecting each
operation's returned value. -/
def OrderedSet.runFrom (os : OrderedSet) :
    List SetOp → OrderedSet × List (Option Bool)
  | [] => (os, [])
  | op :: ops =>
      let s := os.applyOp op
      let r := OrderedSet.runFrom s.1 ops
      (r.1, s.2 :: r.2)

/-- Run a sequence of operations on a freshly constructed OrderedSet of
the given strategy. -/
def OrderedSet.runOps (strategy : Strategy) (ops : List SetOp) :
    OrderedSet × List (Option Bool) :=
  OrderedSet.runFrom (OrderedSet.mkEmpty strategy) ops

/-! ## List-view (ListRecordStore) maintenance, lrs_additions.cpp -/

/-- Modelled from the spec: BE Text removeLeadingTrailingWhitespace, whose
implementation (be_text.cpp) is not among the sources; the spec states
that leading and trailing whitespace on each key-list line is
insignificant, so it is modelled by dropping whitespace characters from
both ends of the line. -/
def strTrim (s : String) : String :=
  ⟨((s.data.dropWhile Char.isWhitespace).reverse.dropWhile
      Char.isWhitespace).reverse⟩

/-- Reference dedup: keep the first occurrence of each string, dropping
later repetitions, given a list of strings already seen. -/
def dedupFirst (seen : List String) : List String → List String
  | [] => []
  | x :: xs =>
      if x ∈ seen then dedupFirst seen xs
      else x :: dedupFirst (x :: seen) xs

/-- Concatenation of key names each followed by the comma separator, as
the badKeys accumulator of insertKeysIntoListRecordStore builds it. -/
def badKeysJoin : List String → String
  | [] => ""
  | k :: ks => k ++ ", " ++ badKeysJoin ks

/-- Persistent state of a ListRecordStore that its operations touch: the
key-list file, as the list of its lines, and the Count property of the
control file. -/
structure ListRS where
  keyListLines : List String
  countProp : Nat
deriving DecidableEq, Repr

/-- Source RecordStore backing a list-view: its records, each a key with
opaque data bytes. -/
structure SourceStore where
  records : List (String × List Nat)
deriving DecidableEq, Repr

/-- containsKey on the source store: whether some record has the key. -/
def SourceStore.containsKey (s : SourceStore) (k : String) : Bool :=
  decide (k ∈ s.records.map Prod.fst)

/-- getCount on the source store. -/
def SourceStore.getCount (s : SourceStore) : Nat :=
  s.records.length

/-- Combined state a list-view operation can observe: the view itself and
the source store it references. -/
structure LRSState where
  view : ListRS
  source : SourceStore
deriving DecidableEq, Repr

/-- updateListRecordStoreCount (lrs_additions.cpp lines 58-77): set the
Count property of the control file and sync it. -/
def updateListRecordStoreCount (v : ListRS) (newCount : Nat) : ListRS :=
  { v with countProp := newCount }

/-- readListRecordStoreKeys (lrs_additions.cpp lines 185-208): read the
key-list file line by line, trim whitespace from each line, and push_back
into a freshly allocated OrderedSet of the default (FASTER) strategy, so
repeated lines are silently dropped. -/
def readListRecordStoreKeys (lines : List String) : OrderedSet :=
  lines.foldl (fun os l => (os.push_back (strTrim l)).1)
    (OrderedSet.mkEmpty .FASTER)

/-- writeListRecordStoreKeys (lrs_additions.cpp lines 210-251), the
completed run: afterwards the key-list file holds exactly the set's
elements, one per line, and the Count property equals the set's size. -/
def writeListRecordStoreKeys (v : ListRS) (keys : OrderedSet) : ListRS :=
  updateListRecordStoreCount { v with keyListLines := keys.elements }
    keys.size

/-- One externally visible step of writeListRecordStoreKeys: creating the
temporary file, writing one key line to it, atomically renaming it over
the key-list file, and setting the Count property. -/
inductive WStep
  | mkTemp
  | writeLine (k : String)
  | renameTemp
  | setCount (n : Nat)
deriving DecidableEq, Repr

/-- File-system state during writeListRecordStoreKeys: the view's
persistent state plus the temporary file, when one exists. -/
structure WState where
  view : ListRS
  temp : Option (List String)
deriving DecidableEq, Repr

/-- Effect of one write step on the file system. -/
def applyW (s : WState) : WStep → WState
  | .mkTemp => { s with temp := some [] }
  | .writeLine k => { s with temp := s.temp.map (fun t => t ++ [k]) }
  | .renameTemp =>
      { view := { s.view with keyListLines := s.temp.getD [] },
        temp := none }
  | .setCount n => { s with view := updateListRecordStoreCount s.view n }

/-- Run a list of write steps in order. -/
def runW (s : WState) (l : List WStep) : WState :=
  l.foldl applyW s

/-- The step sequence writeListRecordStoreKeys performs (lrs_additions.cpp
lines 210-251): create the temporary file, write each key to it, rename
it over the key list, then update and sync the Count property. -/
def writeSteps (keys : OrderedSet) : List WStep :=
  WStep.mkTemp :: (keys.elements.map WStep.writeLine ++
    [WStep.renameTemp, WStep.setCount keys.size])

/-- insertKeysIntoListRecordStore (lrs_additions.cpp lines 253-288): read
the existing keys, check each requested key against the source store,
push_back the ones the source contains, accumulate the others into the
badKeys string, write the modified list, and finally report the bad keys,
if any, as one ObjectDoesNotExist whose message drops the trailing
separator.  The returned Option String is that error message. -/
def insertKeysIntoListRecordStore (st : LRSState) (keys : OrderedSet) :
    LRSState × Option String :=
  let existingKeys := readListRecordStoreKeys st.view.keyListLines
  let acc := keys.elements.foldl
    (fun (a : OrderedSet × String) k =>
      if st.source.containsKey k then ((a.1.push_back k).1, a.2)
      else (a.1, a.2 ++ k ++ ", "))
    (existingKeys, "")
  let view' := writeListRecordStoreKeys st.view acc.1
  (⟨view', st.source⟩,
   if acc.2 = "" then none else some (acc.2.dropRight 2))

/-- removeKeysFromListRecordStore (lrs_additions.cpp lines 290-308): read
the existing keys, erase each requested key, and write the modified list.
The source store is only ever opened read-only. -/
def removeKeysFromListRecordStore (st : LRSState) (keys : OrderedSet) :
    LRSState :=
  let existingKeys := readListRecordStoreKeys st.view.keyListLines
  let newKeys := keys.elements.foldl OrderedSet.erase existingKeys
  ⟨writeListRecordStoreKeys st.view newKeys, st.source⟩

/-! ## Error taxonomy and records (be_error, be_io_recordstore) -/

/-- The BiometricEvaluation error kinds the embedded code distinguishes;
the payload is the exception's message text. -/
inductive BEError
  | ObjectDoesNotExist (msg : String)
  | ObjectExists (msg : String)
  | StrategyError (msg : String)
  | FileError (msg : String)
  | ParameterError (msg : String)
deriving DecidableEq, Repr

/-- Message carried by an exception, as its what() text. -/
def BEError.what : BEError → String
  | .ObjectDoesNotExist m => m
  | .ObjectExists m => m
  | .StrategyError m => m
  | .FileError m => m
  | .ParameterError m => m

/-- Whether the error is the ObjectDoesNotExist kind, the defined
end-of-iteration signal of sequencing. -/
def BEError.isODNE : BEError → Bool
  | .ObjectDoesNotExist _ => true
  | _ => false

/-- One stored record: a key and its opaque data bytes. -/
structure Record where
  key : String
  data : List Nat
deriving DecidableEq, Repr

/-- Bytes of a string key, one numeric code per character. -/
def strBytes (s : String) : List Nat :=
  s.data.map Char.toNat

/-- Observable behaviour of sequencing one open store from its start: the
records successfully returned, in order, followed by the exception the
next sequence call throws — ObjectDoesNotExist when the store is simply
exhausted, some other kind on a genuine failure. -/
structure SourceRun where
  recs : List Record
  terminal : BEError
deriving DecidableEq, Repr

/-! ## Merge and hash-translation pipeline (rstool.cpp) -/

/-- What to hash (rstool.h): the file's contents, name, or path, or
nothing at all. -/
inductive HashablePart
  | NOTHING
  | FILECONTENTS
  | FILENAME
  | FILEPATH
deriving DecidableEq, Repr

/-- How a hashed key's translation is displayed (rstool.h). -/
inductive KeyFormat
  | DEFAULT
  | FILENAME
  | FILEPATH
deriving DecidableEq, Repr

/-- RecordStore Kind discriminator (be_io_recordstore.h). -/
inductive RSKind
  | Default
  | BerkeleyDB
  | Archive
  | File
  | SQLite
  | Compressed
  | List
deriving DecidableEq, Repr

/-- A RecordStore's contents as an insertion-ordered association list of
key and data. -/
abbrev RSContents : Type :=
  List (String × List Nat)

/-- RecordStore insert: throws ObjectExists when the key is already
present, otherwise appends the pair. -/
def rsInsert (l : RSContents) (k : String) (d : List Nat) :
    Except BEError RSContents :=
  if k ∈ l.map Prod.fst then .error (.ObjectExists k)
  else .ok (l ++ [(k, d)])

/-- RecordStore read by key: the first entry with the key. -/
def rsRead : RSContents → String → Option (List Nat)
  | [], _ => none
  | p :: ps, k => if p.1 = k then some p.2 else rsRead ps k

/-- The two stores mergeAndHashRecordStores writes: the merged
destination and the hash-translation store. -/
structure MergeState where
  merged : RSContents
  hashTrans : RSContents
deriving DecidableEq, Repr

/-- Hash computation of the merge loop (rstool.cpp lines 1493-1513): for
FILECONTENTS, digest the record's data; for FILEPATH and FILENAME, digest
its key (there being no file path in a store-to-store merge); for
NOTHING, the hash variable is left at its previous value.  The digest
function itself, BE Text digest, is not among the sources and is
therefore an explicit parameter. -/
def computeHash (digest : List Nat → String) (wth : HashablePart)
    (prev : String) (r : Record) : String :=
  match wth with
  | .FILECONTENTS => digest r.data
  | .FILEPATH => digest (strBytes r.key)
  | .FILENAME => digest (strBytes r.key)
  | .NOTHING => prev

/-- Hash of the selected subject of a record, for a genuinely selected
subject: the record's contents for FILECONTENTS, its key otherwise. -/
def subjectHash (digest : List Nat → String) (wth : HashablePart)
    (r : Record) : String :=
  match wth with
  | .FILECONTENTS => digest r.data
  | _ => digest (strBytes r.key)

/-- Body of the merge loop for one sequenced record (rstool.cpp lines
1492-1531): compute the hash, insert the data into the destination under
the hash, and insert the original key, null-terminated (size plus one
bytes of its C string), into the hash-translation store under the same
hash.  Either insert's exception propagates. -/
def mergeOne (digest : List Nat → String) (wth : HashablePart)
    (st : MergeState × String) (r : Record) :
    Except BEError (MergeState × String) :=
  let hash := computeHash digest wth st.2 r
  match rsInsert st.1.merged hash r.data with
  | .error e => .error e
  | .ok m =>
      match rsInsert st.1.hashTrans hash (strBytes r.key ++ [0]) with
      | .error e => .error e
      | .ok h => .ok (⟨m, h⟩, hash)

/-- The merge loop over the records one source store yields before its
terminal exception. -/
def mergeRecs (digest : List Nat → String) (wth : HashablePart) :
    MergeState × String → List Record →
    Except BEError (MergeState × String)
  | st, [] => .ok st
  | st, r :: rs =>
      match mergeOne digest wth st r with
      | .error e => .error e
      | .ok st' => mergeRecs digest wth st' rs

/-- Processing of one source store (rstool.cpp lines 1489-1535): records
are consumed until sequence throws; ObjectDoesNotExist means the store is
exhausted and the loop ends normally, while any other exception from the
iteration propagates out of the merge. -/
def mergeStore (digest : List Nat → String) (wth : HashablePart)
    (st : MergeState × String) (s : SourceRun) :
    Except BEError (MergeState × String) :=
  match mergeRecs digest wth st s.recs with
  | .error e => .error e
  | .ok st' =>
      match s.terminal with
      | .ObjectDoesNotExist _ => .ok st'
      | e => .error e

/-- Traversal of all source stores, in order. -/
def mergeStores (digest : List Nat → String) (wth : HashablePart) :
    MergeState × String → List SourceRun →
    Except BEError (MergeState × String)
  | st, [] => .ok st
  | st, s :: ss =>
      match mergeStore digest wth st s with
      | .error e => .error e
      | .ok st' => mergeStores digest wth st' ss

/-- mergeAndHashRecordStores (rstool.cpp lines 1439-1537), the record
traversal: both destination stores start empty, every source store is
sequenced to exhaustion, and each record is inserted into the merged
store keyed by its hash with a matching entry in the hash-translation
store. -/
def mergeAndHashRecordStores (digest : List Nat → String)
    (wth : HashablePart) (srcs : List SourceRun) :
    Except BEError MergeState :=
  match mergeStores digest wth (⟨[], []⟩, "") srcs with
  | .error e => .error e
  | .ok st => .ok st.1

/-! ## Command drivers (rstool.cpp) and the Python iteration shim -/

/-- Exit status for success (stdlib EXIT_SUCCESS). -/
def EXIT_SUCCESS : Nat := 0

/-- Exit status for failure (stdlib EXIT_FAILURE). -/
def EXIT_FAILURE : Nat := 1

/-- Outcome of a command: the process exit status, the lines written to
standard output, and the diagnostic lines written to standard error. -/
structure CmdResult where
  exit : Nat
  outLines : List String
  errLines : List String
deriving DecidableEq, Repr

/-- Iteration loop of listRecordStore (rstool.cpp lines 695-711): print
each key sequenceKey yields; when sequencing throws, ObjectDoesNotExist
means the store is exhausted and the action succeeds, while any other
exception is reported and the action fails. -/
def listLoop (printed : List String) :
    List Record → BEError → CmdResult
  | r :: rs, terminal => listLoop (printed ++ [r.key]) rs terminal
  | [], .ObjectDoesNotExist _ =>
      ⟨EXIT_SUCCESS, printed, []⟩
  | [], e =>
      ⟨EXIT_FAILURE, printed,
       ["Could not list RecordStore - " ++ e.what]⟩

/-- listRecordStore (rstool.cpp lines 678-711) applied to an open store
whose sequencing behaves as the given run. -/
def listRecordStore (s : SourceRun) : CmdResult :=
  listLoop [] s.recs s.terminal

/-- Result of the Python iterator's next step. -/
inductive PyNext
  | item (r : Record)
  | stopIteration
  | exc (e : BEError)
deriving DecidableEq, Repr

/-- RSObject_iternext (py_recordstore.cpp lines 42-70): one sequence call;
a record becomes the yielded item, ObjectDoesNotExist becomes
StopIteration, and any other exception is converted to a raised Python
exception. -/
def RSObject_iternext (res : Except BEError Record) : PyNext :=
  match res with
  | .ok r => .item r
  | .error (.ObjectDoesNotExist _) => .stopIteration
  | .error e => .exc e

/-- Configuration procargs_merge works on once flag parsing is done
(rstool.cpp lines 1341-1437).  The flag parse itself already rejects the
FILEPATH subject for merges; destExists is whether a file already exists
at the destination path sflagval. -/
structure MergeConfig where
  hash_pathname : String
  what_to_hash : HashablePart
  hashed_key_format : KeyFormat
  child_rs : List String
  destExists : Bool
deriving DecidableEq, Repr

/-- Validation tail of procargs_merge (rstool.cpp lines 1410-1436), in
source order: default the key format, require at least one source store,
reject an existing destination, reject a hash subject given without a
hash translation store, and default the subject to FILENAME when a
translation store was requested without one. -/
def procargs_merge_checks (c : MergeConfig) :
    Except String MergeConfig :=
  let fmt :=
    if c.hashed_key_format = KeyFormat.DEFAULT then KeyFormat.FILENAME
    else c.hashed_key_format
  if c.child_rs = [] then .error "Missing required option (-a)."
  else if c.destExists then .error "already exists."
  else if c.hash_pathname = "" ∧ c.what_to_hash ≠ HashablePart.NOTHING
  then .error "Specified hash method without -h."
  else
    let wth :=
      if c.hash_pathname ≠ "" ∧ c.what_to_hash = HashablePart.NOTHING
      then HashablePart.FILENAME else c.what_to_hash
    .ok { c with hashed_key_format := fmt, what_to_hash := wth }

/-- Configuration procargs_make works on once flag parsing is done
(rstool.cpp lines 713-891). -/
structure MakeConfig where
  hash_pathname : String
  what_to_hash : HashablePart
  hashed_key_format : KeyFormat
  kind : RSKind
  compress : Bool
deriving DecidableEq, Repr

/-- Validation tail of procargs_make (rstool.cpp lines 858-886), in
source order: default the key format from the subject, reject a hash
subject given without a hash translation store, reject compressing a
ListRecordStore, and default the subject to FILENAME when a translation
store was requested without one. -/
def procargs_make_checks (c : MakeConfig) : Except String MakeConfig :=
  let fmt :=
    if c.hashed_key_format = KeyFormat.DEFAULT then
      (match c.what_to_hash with
       | HashablePart.FILEPATH => KeyFormat.FILEPATH
       | _ => KeyFormat.FILENAME)
    else c.hashed_key_format
  if c.hash_pathname = "" ∧ c.what_to_hash ≠ HashablePart.NOTHING then
    .error "Specified hash method without -h."
  else if c.compress ∧ c.kind = RSKind.List then
    .error "Can't compress ListRecordStore entries."
  else
    let wth :=
      if c.hash_pathname ≠ "" ∧ c.what_to_hash = HashablePart.NOTHING
      then HashablePart.FILENAME else c.what_to_hash
    .ok { c with hashed_key_format := fmt, what_to_hash := wth }

/-- The merge command driver (rstool.cpp lines 1539-1572), whose return
value main returns as the process exit status: a procargs_merge failure
returns EXIT_FAILURE; otherwise the underlying merge runs, and when it
throws, the catch block prints a diagnostic to standard error and
execution falls through to return EXIT_SUCCESS. -/
def mergeCmd (sflagval : String) (pa : Except String MergeConfig)
    (mergeOutcome : Except BEError Unit) : CmdResult :=
  match pa with
  | .error msg => ⟨EXIT_FAILURE, [], [msg]⟩
  | .ok _ =>
      match mergeOutcome with
      | .error e =>
          ⟨EXIT_SUCCESS, [],
           ["Could not create " ++ sflagval ++ " - " ++ e.what]⟩
      | .ok _ => ⟨EXIT_SUCCESS, [], []⟩

/-! ## The remaining sequencing loops of the toolchain and bindings -/

/-- RecordStore read returning the BiometricEvaluation exception: the
data under the key, or ObjectDoesNotExist naming the key. -/
def rsReadE (l : RSContents) (k : String) : Except BEError (List Nat) :=
  match rsRead l k with
  | some v => .ok v
  | none => .error (.ObjectDoesNotExist k)

/-- Key-collection loop of the diff command (rstool.cpp lines
2195-2206): when no keys are passed, sequenceKey is called until it
throws; ObjectDoesNotExist ends the collection with the keys gathered so
far, while any other exception is not caught there and propagates. -/
def diffCollectKeys (keys : List String) :
    List Record → BEError → Except BEError (List String)
  | r :: rs, t => diffCollectKeys (keys ++ [r.key]) rs t
  | [], .ObjectDoesNotExist _ => .ok keys
  | [], e => .error e

/-- Listing loop of lsrecstor (lsrecstor.cpp lines 86-95): each
sequenced key is printed; ObjectDoesNotExist breaks the loop and the
tool succeeds, a StrategyError is reported by ERR_OUT and the tool
fails, and any other exception is not caught and propagates. -/
def lsrecstorLoop (printed : List String) :
    List Record → BEError → Except BEError CmdResult
  | r :: rs, t => lsrecstorLoop (printed ++ [r.key]) rs t
  | [], .ObjectDoesNotExist _ => .ok ⟨EXIT_SUCCESS, printed, []⟩
  | [], .StrategyError m =>
      .ok ⟨EXIT_FAILURE, printed, ["A strategy error occurred: " ++ m]⟩
  | [], e => .error e

/-- Loop of printKeys in countRecordsOfSize (countRecordsOfSize.cpp
lines 88-103): keys whose record length equals the target size are
printed; ObjectDoesNotExist ends the scan normally with no diagnostic,
while any other exception prints its message to standard error and
stops the scan early.  Returns the printed keys and the diagnostic
lines. -/
def printKeysLoop (targetSize : Nat) (printed : List String) :
    List Record → BEError → List String × List String
  | r :: rs, t =>
      if r.data.length = targetSize
      then printKeysLoop targetSize (printed ++ [r.key]) rs t
      else printKeysLoop targetSize printed rs t
  | [], .ObjectDoesNotExist _ => (printed, [])
  | [], e => (printed, [e.what])

/-- Dump loop of dmprecstor (dmprecstor.cpp lines 176-216): records with
index at least first are dumped, and the loop also stops once the index
passes last; ObjectDoesNotExist breaks the loop and the tool succeeds,
a StrategyError is reported by ERR_OUT and the tool fails, and any
other exception is not caught and propagates. -/
def dmprecstorLoop (first last : Nat) :
    Nat → List String → List Record → BEError →
    Except BEError CmdResult
  | _, dumped, [], .ObjectDoesNotExist _ =>
      .ok ⟨EXIT_SUCCESS, dumped, []⟩
  | _, dumped, [], .StrategyError m =>
      .ok ⟨EXIT_FAILURE, dumped, ["A strategy error occurred: " ++ m]⟩
  | _, _, [], e => .error e
  | curr, dumped, r :: rs, t =>
      let dumped' := if first ≤ curr then dumped ++ [r.key] else dumped
      if last < curr + 1 then .ok ⟨EXIT_SUCCESS, dumped', []⟩
      else dmprecstorLoop first last (curr + 1) dumped' rs t

/-- Per-store merge loop of mrgrecstor (mrgrecstor.cpp lines 162-184):
each sequenced record is inserted into the destination;
ObjectDoesNotExist from sequencing breaks the loop — this source store
is done — while a StrategyError is reported by ERR_OUT and fails the
tool, and a duplicate key (ObjectExists from insert) likewise fails
the tool. -/
def mrgrecstorLoop (dest : RSContents) :
    List Record → BEError → Except BEError (Nat × RSContents × List String)
  | r :: rs, t =>
      (match rsInsert dest r.key r.data with
       | .ok d => mrgrecstorLoop d rs t
       | .error _ =>
           .ok (EXIT_FAILURE, dest,
             ["Attempted to add duplicate key '" ++ r.key ++
              "' to record store."]))
  | [], .ObjectDoesNotExist _ => .ok (EXIT_SUCCESS, dest, [])
  | [], .StrategyError m =>
      .ok (EXIT_FAILURE, dest, ["A strategy error occurred: " ++ m])
  | [], e => .error e

/-- Bounded collection loop of readAllKeys in the R binding
(recordstore.cpp lines 281-291): up to the given number of further
sequenceKey calls; ObjectDoesNotExist mid-scan is the normal end of a
shortened store, any other exception raises an R error. -/
def readAllKeysRLoop :
    Nat → List String → List Record → BEError →
    Except BEError (List String)
  | 0, keys, _, _ => .ok keys
  | Nat.succ _, keys, [], .ObjectDoesNotExist _ => .ok keys
  | Nat.succ _, _, [], e => .error e
  | Nat.succ n, keys, r :: rs, t =>
      readAllKeysRLoop n (keys ++ [r.key]) rs t

/-- readAllKeys of the R binding (recordstore.cpp lines 264-294): one
initial sequenceKey from the start — whose ObjectDoesNotExist means an
exhausted empty store — then the bounded loop for the remaining
count-minus-one keys. -/
def readAllKeysR (numElements : Nat) (s : SourceRun) :
    Except BEError (List String) :=
  match s.recs with
  | [] =>
      (match s.terminal with
       | .ObjectDoesNotExist _ => .ok []
       | e => .error e)
  | r :: rs => readAllKeysRLoop (numElements - 1) [r.key] rs s.terminal

/-- Bounded collection loop of readAllKeysAndData in the R binding
(recordstore.cpp lines 335-351), collecting whole records. -/
def readAllRecsRLoop :
    Nat → List (String × List Nat) → List Record → BEError →
    Except BEError (List (String × List Nat))
  | 0, acc, _, _ => .ok acc
  | Nat.succ _, acc, [], .ObjectDoesNotExist _ => .ok acc
  | Nat.succ _, _, [], e => .error e
  | Nat.succ n, acc, r :: rs, t =>
      readAllRecsRLoop n (acc ++ [(r.key, r.data)]) rs t

/-- readAllKeysAndData of the R binding (recordstore.cpp lines 308-358):
like readAllKeys but collecting keys and data together. -/
def readAllKeysAndDataR (numElements : Nat) (s : SourceRun) :
    Except BEError (List (String × List Nat)) :=
  match s.recs with
  | [] =>
      (match s.terminal with
       | .ObjectDoesNotExist _ => .ok []
       | e => .error e)
  | r :: rs =>
      readAllRecsRLoop (numElements - 1) [(r.key, r.data)] rs s.terminal

/-- Main range loop of extract (rstool.cpp lines 628-672), with no hash
translation store: for each index from i up to last a record is
sequenced and dumped or displayed, and ANY exception thrown by sequence
— expressly including ObjectDoesNotExist when the range runs past the
end of the store — is reported as Could not read key and the action
fails. -/
def extractRangeLoop (last : Nat) :
    Nat → List String → List Record → BEError → CmdResult
  | i, outs, recs, terminal =>
    if last < i then ⟨EXIT_SUCCESS, outs, []⟩
    else
      match recs with
      | r :: rs =>
          extractRangeLoop last (i + 1) (outs ++ [r.key]) rs terminal
      | [] =>
          ⟨EXIT_FAILURE, outs,
           ["Could not read key " ++ toString i ++ " - " ++
            terminal.what ++ "."]⟩

/-- Skip loop of extract (rstool.cpp lines 618-627): advance the cursor
first minus one times before the range; ANY exception from sequenceKey —
ObjectDoesNotExist included — is reported as Could not sequence and the
action fails.  On completion the main range loop runs. -/
def extractSkipLoop (first last : Nat) :
    Nat → List Record → BEError → CmdResult
  | 0, recs, terminal => extractRangeLoop last first [] recs terminal
  | Nat.succ _, [], _ =>
      ⟨EXIT_FAILURE, [],
       ["Could not sequence to record " ++ toString first]⟩
  | Nat.succ n, _ :: rs, terminal =>
      extractSkipLoop first last n rs terminal

/-- Range branch of extract for the range first-last (rstool.cpp lines
611-673), over a store whose sequencing behaves as the given run. -/
def extractRangeCmd (first last : Nat) (s : SourceRun) : CmdResult :=
  extractSkipLoop first last (first - 1) s.recs s.terminal

/-- Single-key read of extract with the hashed-key fallback (rstool.cpp
lines 542-560): an ObjectDoesNotExist from the plain read is silently
consumed — outside any iteration loop — and the digest of the key is
read instead; only a failure of that second read is reported, while any
other exception from the first read fails directly.  The digest
function (be_text.cpp, absent from the sources) is a parameter.
Returns the record read, or the diagnostic lines of a failure. -/
def extractReadKey (digest : String → String) (l : RSContents)
    (key : String) : Except (List String) (List Nat) :=
  match rsReadE l key with
  | .ok buf => .ok buf
  | .error (.ObjectDoesNotExist _) =>
      (match rsReadE l (digest key) with
       | .ok buf => .ok buf
       | .error e =>
           .error ["Error extracting " ++ key ++ " - " ++ e.what])
  | .error _ => .error ["Error extracting " ++ key]

/-! ## Specification-level auxiliary definitions -/

/-- Bisimulation between a FASTER-strategy set and a SMALLER-strategy
set: the FASTER side is well formed and both expose the same elements. -/
def StratRel (fa sm : OrderedSet) : Prop :=
  fa.strategy = .FASTER ∧ sm.strategy = .SMALLER ∧ fa.WF ∧
  fa.elements = sm.elements

/-- Shorthand for the fold that push_backs a list of values. -/
def pushAll (os : OrderedSet) (ls : List String) : OrderedSet :=
  ls.foldl (fun o l => (o.push_back l).1) os

/-- Left inverse of strBytes: rebuild the string from its character
codes, witnessing that the original key is recoverable from the bytes
stored in a hash-translation entry. -/
def bytesStr (l : List Nat) : String :=
  ⟨l.map Char.ofNat⟩

/-- Invariant of the merge traversal: the destination and the
hash-translation store hold the same hash keys in the same order, and
every destination entry is keyed by the hash of the selected subject of
some already-processed record, with the matching translation entry
holding that record's original key, null-terminated. -/
def MergeGood (digest : List Nat → String) (wth : HashablePart)
    (R : Record → Prop) (st : MergeState) : Prop :=
  st.merged.map Prod.fst = st.hashTrans.map Prod.fst ∧
  ∀ p ∈ st.merged, ∃ r : Record, R r ∧
    p.1 = subjectHash digest wth r ∧ p.2 = r.data ∧
    rsRead st.hashTrans p.1 = some (strBytes r.key ++ [0])

/-! ## Lemmas about the ordered unique key collection -/

theorem OrderedSet.valueExists_eq_mem (os : OrderedSet) (h : os.WF)
    (v : String) : os.valueExists v = decide (v ∈ os.elements) := by
  obtain ⟨strat, el, uniq⟩ := os
  cases strat with
  | FASTER =>
      obtain ⟨-, h2⟩ := h
      obtain ⟨hu, he⟩ := h2 rfl
      simp only [OrderedSet.valueExists, decide_eq_decide]
      exact ⟨fun hv => hu v hv, fun hv => he v hv⟩
  | SMALLER => rfl

theorem OrderedSet.strategy_push_back (os : OrderedSet) (v : String) :
    (os.push_back v).1.strategy = os.strategy := by
  obtain ⟨strat, el, uniq⟩ := os
  cases strat <;> simp only [OrderedSet.push_back] <;> split <;> rfl

theorem OrderedSet.strategy_erase (os : OrderedSet) (v : String) :
    (os.erase v).strategy = os.strategy := by
  rfl

theorem OrderedSet.push_back_of_exists (os : OrderedSet) (v : String)
    (h : os.valueExists v = true) : os.push_back v = (os, false) := by
  obtain ⟨strat, el, uniq⟩ := os
  cases strat with
  | FASTER =>
      simp only [OrderedSet.valueExists, decide_eq_true_eq] at h
      simp [OrderedSet.push_back, h]
  | SMALLER =>
      simp [OrderedSet.push_back, h]

theorem OrderedSet.push_back_of_not_exists (os : OrderedSet) (v : String)
    (h : os.valueExists v = false) :
    (os.push_back v).1.elements = os.elements ++ [v] ∧
    (os.push_back v).2 = true := by
  obtain ⟨strat, el, uniq⟩ := os
  cases strat with
  | FASTER =>
      simp only [OrderedSet.valueExists, decide_eq_false_iff_not] at h
      simp [OrderedSet.push_back, h]
  | SMALLER =>
      simp only [OrderedSet.push_back, h]
      simp

theorem OrderedSet.erase_elements (os : OrderedSet) (v : String) :
    (os.erase v).elements =
      os.elements.filter (fun x => decide (x ≠ v)) := by
  rfl

theorem OrderedSet.mem_erase_elements (os : OrderedSet) (v x : String) :
    x ∈ (os.erase v).elements ↔ (x ∈ os.elements ∧ x ≠ v) := by
  rw [OrderedSet.erase_elements]
  simp [List.mem_filter]

theorem OrderedSet.push_back_FASTER_of_not (el uniq : List String)
    (v : String) (hv : v ∉ uniq) :
    OrderedSet.push_back ⟨.FASTER, el, uniq⟩ v =
      (⟨.FASTER, el ++ [v], v :: uniq⟩, true) := by
  simp [OrderedSet.push_back, hv]

theorem OrderedSet.push_back_SMALLER_of_not (el uniq : List String)
    (v : String) (hv : v ∉ el) :
    OrderedSet.push_back ⟨.SMALLER, el, uniq⟩ v =
      (⟨.SMALLER, el ++ [v], uniq⟩, true) := by
  simp [OrderedSet.push_back, OrderedSet.valueExists, hv]

theorem OrderedSet.WF_push_back (os : OrderedSet) (h : os.WF)
    (v : String) : ((os.push_back v).1).WF := by
  obtain ⟨strat, el, uniq⟩ := os
  obtain ⟨hnd, hf⟩ := h
  cases strat with
  | FASTER =>
      obtain ⟨hu, he⟩ := hf rfl
      by_cases hv : v ∈ uniq
      · have hpb : OrderedSet.push_back ⟨.FASTER, el, uniq⟩ v =
            (⟨.FASTER, el, uniq⟩, false) := by
          simp [OrderedSet.push_back, hv]
        rw [hpb]
        exact ⟨hnd, fun _ => ⟨hu, he⟩⟩
      · rw [OrderedSet.push_back_FASTER_of_not el uniq v hv]
        have hvel : v ∉ el := fun hc => hv (he v hc)
        refine ⟨?_, fun _ => ⟨?_, ?_⟩⟩
        · simp only [List.nodup_append, List.nodup_cons,
            List.not_mem_nil, not_false_iff, List.nodup_nil, true_and,
            and_true]
          refine ⟨hnd, ?_⟩
          intro x hx hxm
          rw [List.mem_singleton] at hxm
          subst hxm
          exact hvel hx
        · intro x hx
          rcases List.mem_cons.1 hx with rfl | hx
          · exact List.mem_append_right _ (List.mem_singleton_self _)
          · exact List.mem_append_left _ (hu x hx)
        · intro x hx
          rcases List.mem_append.1 hx with hx | hx
          · exact List.mem_cons_of_mem _ (he x hx)
          · rw [List.mem_singleton] at hx
            exact hx ▸ List.mem_cons_self _ _
  | SMALLER =>
      by_cases hv : v ∈ el
      · have hpb : OrderedSet.push_back ⟨.SMALLER, el, uniq⟩ v =
            (⟨.SMALLER, el, uniq⟩, false) := by
          simp [OrderedSet.push_back, OrderedSet.valueExists, hv]
        rw [hpb]
        exact ⟨hnd, fun hcon => nomatch hcon⟩
      · rw [OrderedSet.push_back_SMALLER_of_not el uniq v hv]
        refine ⟨?_, fun hcon => nomatch hcon⟩
        simp only [List.nodup_append, List.nodup_cons,
          List.not_mem_nil, not_false_iff, List.nodup_nil, true_and,
          and_true]
        refine ⟨hnd, ?_⟩
        intro x hx hxm
        rw [List.mem_singleton] at hxm
        subst hxm
        exact hv hx

theorem OrderedSet.WF_erase (os : OrderedSet) (h : os.WF) (v : String) :
    (os.erase v).WF := by
  obtain ⟨strat, el, uniq⟩ := os
  obtain ⟨hnd, hf⟩ := h
  cases strat with
  | FASTER =>
      obtain ⟨hu, he⟩ := hf rfl
      refine ⟨List.Nodup.filter _ hnd, fun _ => ⟨?_, ?_⟩⟩
      · intro x hx
        simp only [OrderedSet.erase, List.mem_filter] at hx ⊢
        exact ⟨hu x hx.1, hx.2⟩
      · intro x hx
        simp only [OrderedSet.erase, List.mem_filter] at hx ⊢
        exact ⟨he x hx.1, hx.2⟩
  | SMALLER =>
      exact ⟨List.Nodup.filter _ hnd, by intro hcon; cases hcon⟩

theorem OrderedSet.mkEmpty_WF (strategy : Strategy) :
    (OrderedSet.mkEmpty strategy).WF := by
  refine ⟨List.nodup_nil, fun _ => ⟨?_, ?_⟩⟩ <;> intro x hx <;> cases hx

/-- Claim C5: for every reachable OrderedSet and every value v,
push_back v returns false and leaves the collection unchanged when v is
already present, and otherwise appends v at the end of the iteration
sequence and returns true; erase v removes exactly the occurrences of v,
preserving the order of the rest; size equals the number of elements;
and valueExists v holds exactly when v is in the collection. -/
theorem C5_ordered_set_operations (os : OrderedSet) (v : String)
    (h : os.WF) :
    (os.valueExists v = true ↔ v ∈ os.elements) ∧
    (os.valueExists v = true → os.push_back v = (os, false)) ∧
    (os.valueExists v = false →
      (os.push_back v).1.elements = os.elements ++ [v] ∧
      (os.push_back v).2 = true) ∧
    (v ∉ (os.erase v).elements) ∧
    ((os.erase v).elements =
      os.elements.filter (fun x => decide (x ≠ v))) ∧
    (os.size = os.elements.length) := by
  refine ⟨?_, os.push_back_of_exists v, os.push_back_of_not_exists v,
    ?_, os.erase_elements v, rfl⟩
  · rw [os.valueExists_eq_mem h v]
    exact decide_eq_true_iff
  · intro hv
    exact ((os.mem_erase_elements v v).1 hv).2 rfl

/-- Witness for C5 at a concrete reachable state holding a and b. -/
theorem C5_ordered_set_operations_witness :
    (let os := ((OrderedSet.mkEmpty .FASTER).push_back "a").1
     os.WF ∧
     ((os.valueExists "a" = true ↔ "a" ∈ os.elements) ∧
      (os.valueExists "a" = true → os.push_back "a" = (os, false)) ∧
      (os.valueExists "a" = false →
        (os.push_back "a").1.elements = os.elements ++ ["a"] ∧
        (os.push_back "a").2 = true) ∧
      ("a" ∉ (os.erase "a").elements) ∧
      ((os.erase "a").elements =
        os.elements.filter (fun x => decide (x ≠ "a"))) ∧
      (os.size = os.elements.length))) :=
  ⟨by decide, C5_ordered_set_operations _ "a" (by decide)⟩

/-! ## Strategy equivalence -/

theorem StratRel.valueExists_eq {fa sm : OrderedSet} (h : StratRel fa sm)
    (v : String) : fa.valueExists v = sm.valueExists v := by
  obtain ⟨h1, h2, hwf, hel⟩ := h
  rw [fa.valueExists_eq_mem hwf v, hel]
  obtain ⟨strat, el, uniq⟩ := sm
  cases strat with
  | FASTER => cases h2
  | SMALLER => rfl

theorem StratRel.applyOp {fa sm : OrderedSet} (h : StratRel fa sm)
    (op : SetOp) :
    StratRel (fa.applyOp op).1 (sm.applyOp op).1 ∧
    (fa.applyOp op).2 = (sm.applyOp op).2 := by
  obtain ⟨h1, h2, hwf, hel⟩ := h
  cases op with
  | push v =>
      have hve := StratRel.valueExists_eq ⟨h1, h2, hwf, hel⟩ v
      simp only [OrderedSet.applyOp]
      cases hv : fa.valueExists v with
      | true =>
          rw [fa.push_back_of_exists v hv,
            sm.push_back_of_exists v (hve ▸ hv)]
          exact ⟨⟨h1, h2, hwf, hel⟩, rfl⟩
      | false =>
          obtain ⟨hfe, hfb⟩ := fa.push_back_of_not_exists v hv
          obtain ⟨hse, hsb⟩ := sm.push_back_of_not_exists v (hve ▸ hv)
          refine ⟨⟨?_, ?_, fa.WF_push_back hwf v, ?_⟩, ?_⟩
          · rw [fa.strategy_push_back v]; exact h1
          · rw [sm.strategy_push_back v]; exact h2
          · rw [hfe, hse, hel]
          · rw [hfb, hsb]
  | del v =>
      simp only [OrderedSet.applyOp]
      refine ⟨⟨?_, ?_, fa.WF_erase hwf v, ?_⟩, trivial⟩
      · rw [fa.strategy_erase v]; exact h1
      · rw [sm.strategy_erase v]; exact h2
      · rw [fa.erase_elements v, sm.erase_elements v, hel]

theorem StratRel.runFrom {fa sm : OrderedSet} (h : StratRel fa sm)
    (ops : List SetOp) :
    StratRel (fa.runFrom ops).1 (sm.runFrom ops).1 ∧
    (fa.runFrom ops).2 = (sm.runFrom ops).2 := by
  induction ops generalizing fa sm with
  | nil => exact ⟨h, rfl⟩
  | cons op ops ih =>
      obtain ⟨hstep, hout⟩ := StratRel.applyOp h op
      obtain ⟨hrel, htr⟩ := ih hstep
      simp only [OrderedSet.runFrom]
      exact ⟨hrel, by rw [hout, htr]⟩

/-- Claim C6: the two OrderedSet strategies are observationally
equivalent: running any sequence of push_back and erase operations on a
freshly constructed FASTER set and on a freshly constructed SMALLER set
returns identical results for every operation, yields identical
iteration sequences, identical valueExists answers, and identical
sizes. -/
theorem C6_strategy_equivalence (ops : List SetOp) :
    (OrderedSet.runOps .FASTER ops).2 =
      (OrderedSet.runOps .SMALLER ops).2 ∧
    (OrderedSet.runOps .FASTER ops).1.elements =
      (OrderedSet.runOps .SMALLER ops).1.elements ∧
    (∀ v, (OrderedSet.runOps .FASTER ops).1.valueExists v =
      (OrderedSet.runOps .SMALLER ops).1.valueExists v) ∧
    (OrderedSet.runOps .FASTER ops).1.size =
      (OrderedSet.runOps .SMALLER ops).1.size := by
  have h0 : StratRel (OrderedSet.mkEmpty .FASTER)
      (OrderedSet.mkEmpty .SMALLER) :=
    ⟨rfl, rfl, OrderedSet.mkEmpty_WF _, rfl⟩
  obtain ⟨hrel, htr⟩ := StratRel.runFrom h0 ops
  refine ⟨htr, hrel.2.2.2, fun v => hrel.valueExists_eq v, ?_⟩
  exact congrArg List.length hrel.2.2.2

/-! ## Lemmas about reading and writing the key list -/

theorem mem_dedupFirst (seen : List String) (ls : List String)
    (x : String) : x ∈ dedupFirst seen ls ↔ (x ∈ ls ∧ x ∉ seen) := by
  induction ls generalizing seen with
  | nil => simp [dedupFirst]
  | cons l ls ih =>
      by_cases hl : l ∈ seen
      · rw [dedupFirst, if_pos hl, ih]
        constructor
        · exact fun h => ⟨List.mem_cons_of_mem _ h.1, h.2⟩
        · rintro ⟨hx, hs⟩
          rcases List.mem_cons.1 hx with rfl | hx
          · exact absurd hl hs
          · exact ⟨hx, hs⟩
      · rw [dedupFirst, if_neg hl]
        constructor
        · intro h
          rcases List.mem_cons.1 h with rfl | h
          · exact ⟨List.mem_cons_self _ _, hl⟩
          · rw [ih] at h
            refine ⟨List.mem_cons_of_mem _ h.1, ?_⟩
            intro hs
            exact h.2 (List.mem_cons_of_mem _ hs)
        · rintro ⟨hx, hs⟩
          rcases List.mem_cons.1 hx with rfl | hx
          · exact List.mem_cons_self _ _
          · by_cases hxl : x = l
            · exact hxl ▸ List.mem_cons_self _ _
            · exact List.mem_cons_of_mem _
                ((ih (l :: seen)).2 ⟨hx, by
                  intro hc
                  rcases List.mem_cons.1 hc with h1 | h1
                  · exact hxl h1
                  · exact hs h1⟩)

theorem dedupFirst_congr (s₁ s₂ : List String)
    (h : ∀ x, x ∈ s₁ ↔ x ∈ s₂) (ls : List String) :
    dedupFirst s₁ ls = dedupFirst s₂ ls := by
  induction ls generalizing s₁ s₂ with
  | nil => rfl
  | cons l ls ih =>
      by_cases hl : l ∈ s₁
      · rw [dedupFirst, if_pos hl, dedupFirst, if_pos ((h l).1 hl)]
        exact ih s₁ s₂ h
      · rw [dedupFirst, if_neg hl, dedupFirst,
          if_neg (fun hc => hl ((h l).2 hc))]
        refine congrArg (l :: ·) (ih _ _ ?_)
        intro x
        simp only [List.mem_cons]
        exact or_congr Iff.rfl (h x)

theorem pushAll_WF (os : OrderedSet) (h : os.WF) (ls : List String) :
    (pushAll os ls).WF := by
  induction ls generalizing os with
  | nil => exact h
  | cons l ls ih => exact ih _ (os.WF_push_back h l)

theorem pushAll_elements (os : OrderedSet) (h : os.WF)
    (ls : List String) :
    (pushAll os ls).elements = os.elements ++ dedupFirst os.elements ls := by
  induction ls generalizing os with
  | nil => simp [pushAll, dedupFirst]
  | cons l ls ih =>
      by_cases hl : l ∈ os.elements
      · have hv : os.valueExists l = true := by
          rw [os.valueExists_eq_mem h l]; exact decide_eq_true hl
        have hstep : (os.push_back l).1 = os := by
          rw [os.push_back_of_exists l hv]
        rw [pushAll, List.foldl_cons, hstep, ← pushAll, ih os h,
          dedupFirst, if_pos hl]
      · have hv : os.valueExists l = false := by
          rw [os.valueExists_eq_mem h l]
          exact decide_eq_false hl
        obtain ⟨he, -⟩ := os.push_back_of_not_exists l hv
        have hwf' := os.WF_push_back h l
        rw [pushAll, List.foldl_cons, ← pushAll, ih _ hwf', he,
          dedupFirst, if_neg hl, List.append_assoc]
        refine congrArg (os.elements ++ ·) ?_
        rw [List.singleton_append]
        refine congrArg (l :: ·) (dedupFirst_congr _ _ ?_ ls)
        intro x
        simp [List.mem_append, List.mem_cons, or_comm]

theorem readListRecordStoreKeys_eq_pushAll (lines : List String) :
    readListRecordStoreKeys lines =
      pushAll (OrderedSet.mkEmpty .FASTER) (lines.map strTrim) := by
  rw [readListRecordStoreKeys, pushAll, List.foldl_map]

theorem readListRecordStoreKeys_WF (lines : List String) :
    (readListRecordStoreKeys lines).WF := by
  rw [readListRecordStoreKeys_eq_pushAll]
  exact pushAll_WF _ (OrderedSet.mkEmpty_WF _) _

theorem readListRecordStoreKeys_elements (lines : List String) :
    (readListRecordStoreKeys lines).elements =
      dedupFirst [] (lines.map strTrim) := by
  rw [readListRecordStoreKeys_eq_pushAll,
    pushAll_elements _ (OrderedSet.mkEmpty_WF _)]
  rfl

theorem mem_readListRecordStoreKeys (lines : List String) (x : String) :
    x ∈ (readListRecordStoreKeys lines).elements ↔
      x ∈ lines.map strTrim := by
  rw [readListRecordStoreKeys_elements, mem_dedupFirst]
  simp

theorem eraseAll_mem (os : OrderedSet) (ks : List String) (x : String) :
    x ∈ (ks.foldl OrderedSet.erase os).elements ↔
      (x ∈ os.elements ∧ x ∉ ks) := by
  induction ks generalizing os with
  | nil => simp
  | cons k ks ih =>
      rw [List.foldl_cons, ih, os.mem_erase_elements]
      constructor
      · rintro ⟨⟨hx, hxk⟩, hks⟩
        refine ⟨hx, ?_⟩
        intro hc
        rcases List.mem_cons.1 hc with rfl | hc
        · exact hxk rfl
        · exact hks hc
      · rintro ⟨hx, hks⟩
        refine ⟨⟨hx, fun hc => hks (hc ▸ List.mem_cons_self _ _)⟩, ?_⟩
        exact fun hc => hks (List.mem_cons_of_mem _ hc)

theorem eraseAll_WF (os : OrderedSet) (h : os.WF) (ks : List String) :
    (ks.foldl OrderedSet.erase os).WF := by
  induction ks generalizing os with
  | nil => exact h
  | cons k ks ih => exact ih _ (os.WF_erase h k)

theorem insertFold_spec (src : SourceStore) (ks : List String)
    (os : OrderedSet) (s : String) :
    ks.foldl (fun (a : OrderedSet × String) k =>
      if src.containsKey k then ((a.1.push_back k).1, a.2)
      else (a.1, a.2 ++ k ++ ", ")) (os, s) =
      (pushAll os (ks.filter (fun k => src.containsKey k)),
       s ++ badKeysJoin (ks.filter (fun k => !src.containsKey k))) := by
  induction ks generalizing os s with
  | nil =>
      simp only [List.foldl_nil, List.filter_nil, pushAll, badKeysJoin]
      rw [String.append_empty]
  | cons k ks ih =>
      by_cases hk : src.containsKey k = true
      · rw [List.foldl_cons, if_pos hk, ih,
          List.filter_cons_of_pos (by simpa using hk),
          List.filter_cons_of_neg (by simp [hk])]
        rfl
      · rw [List.foldl_cons, if_neg (by simpa using hk), ih,
          List.filter_cons_of_neg (by simpa using hk),
          List.filter_cons_of_pos (by simp [Bool.eq_false_iff.2 hk])]
        refine congrArg (pushAll os _, ·) ?_
        rw [badKeysJoin]
        simp [String.append_assoc]

/-- Claim C10: reading a list-view key list silently deduplicates — the
in-memory collection holds each trimmed line at most once, keeping the
first occurrence's position (it equals the first-occurrence dedup of the
trimmed lines), and consequently both membership-maintenance operations
re-establish the invariant that the persisted key list is duplicate-free
with the Count property equal to the number of distinct keys. -/
theorem C10_read_keys_dedup_invariant (lines : List String)
    (st : LRSState) (keys : OrderedSet) :
    ((readListRecordStoreKeys lines).elements =
      dedupFirst [] (lines.map strTrim)) ∧
    (readListRecordStoreKeys lines).elements.Nodup ∧
    (∀ x, x ∈ (readListRecordStoreKeys lines).elements ↔
      x ∈ lines.map strTrim) ∧
    ((removeKeysFromListRecordStore st keys).view.keyListLines.Nodup ∧
     (removeKeysFromListRecordStore st keys).view.countProp =
       (removeKeysFromListRecordStore st keys).view.keyListLines.length) ∧
    ((insertKeysIntoListRecordStore st keys).1.view.keyListLines.Nodup ∧
     (insertKeysIntoListRecordStore st keys).1.view.countProp =
       (insertKeysIntoListRecordStore st keys).1.view.keyListLines.length) := by
  refine ⟨readListRecordStoreKeys_elements lines,
    (readListRecordStoreKeys_WF lines).1,
    mem_readListRecordStoreKeys lines, ⟨?_, rfl⟩, ⟨?_, rfl⟩⟩
  · exact (eraseAll_WF _ (readListRecordStoreKeys_WF _) _).1
  · simp only [insertKeysIntoListRecordStore,
      insertFold_spec st.source keys.elements
        (readListRecordStoreKeys st.view.keyListLines) ""]
    exact (pushAll_WF _ (readListRecordStoreKeys_WF _) _).1

theorem badKeysJoin_ne_empty (k : String) (ks : List String) :
    badKeysJoin (k :: ks) ≠ "" := by
  intro h
  have hlen := congrArg String.length h
  have h2 : (", ").length = 2 := rfl
  have h0 : ("" : String).length = 0 := rfl
  rw [badKeysJoin] at hlen
  simp only [String.length_append, h2, h0] at hlen
  omega

/-- Claim C9: the membership-remove operation modifies only the view's
key-list file and Count property — each named key is deleted from the
key list if present, the remaining deduplicated keys are kept, and the
source store, with all its records and its count, is left untouched. -/
theorem C9_remove_keys_frame (st : LRSState) (keys : OrderedSet) :
    ((removeKeysFromListRecordStore st keys).source = st.source) ∧
    ((removeKeysFromListRecordStore st keys).source.getCount =
      st.source.getCount) ∧
    (∀ k ∈ keys.elements,
      k ∉ (removeKeysFromListRecordStore st keys).view.keyListLines) ∧
    (∀ k, k ∈ (removeKeysFromListRecordStore st keys).view.keyListLines ↔
      (k ∈ (readListRecordStoreKeys st.view.keyListLines).elements ∧
       k ∉ keys.elements)) ∧
    ((removeKeysFromListRecordStore st keys).view.countProp =
      (removeKeysFromListRecordStore st keys).view.keyListLines.length) := by
  refine ⟨rfl, rfl, ?_, ?_, rfl⟩
  · intro k hk hmem
    exact ((eraseAll_mem _ _ _).1 hmem).2 hk
  · intro k
    exact eraseAll_mem _ _ _

/-- Witness for C9: removing the keys b and c from a view whose key list
holds a and b over a two-record source removes b, keeps a, and leaves the
source untouched. -/
theorem C9_remove_keys_frame_witness :
    (let st : LRSState :=
      ⟨⟨["a", "b"], 2⟩, ⟨[("a", [1]), ("b", [2])]⟩⟩
     let keys : OrderedSet := ⟨.FASTER, ["b", "c"], ["c", "b"]⟩
     ((removeKeysFromListRecordStore st keys).source = st.source) ∧
     ("b" ∈ keys.elements →
       "b" ∉ (removeKeysFromListRecordStore st keys).view.keyListLines) ∧
     ((removeKeysFromListRecordStore st keys).view.keyListLines = ["a"]) ∧
     ((removeKeysFromListRecordStore st keys).view.countProp = 1) ∧
     ((removeKeysFromListRecordStore st keys).source.getCount = 2)) := by
  refine ⟨(C9_remove_keys_frame _ _).1,
    fun hb => (C9_remove_keys_frame _ _).2.2.1 "b" hb, ?_, ?_, ?_⟩
  · decide
  · decide
  · decide

/-- Claim C1: the membership-add operation validates each key of the
batch against the source store's key set; every key the source contains
ends up in the persisted key list, whose Count property matches, the
source store itself is unchanged, and exactly the keys absent from the
source are collected, in order, into the single reported
ObjectDoesNotExist message — which is absent when every key was valid —
after the valid keys have been written. -/
theorem C1_insert_keys_partial_success (st : LRSState)
    (keys : OrderedSet) :
    ((insertKeysIntoListRecordStore st keys).1.source = st.source) ∧
    (∀ k ∈ keys.elements, st.source.containsKey k = true →
      k ∈ (insertKeysIntoListRecordStore st keys).1.view.keyListLines) ∧
    (∀ k, k ∈ (insertKeysIntoListRecordStore st keys).1.view.keyListLines ↔
      (k ∈ (readListRecordStoreKeys st.view.keyListLines).elements ∨
       (k ∈ keys.elements ∧ st.source.containsKey k = true))) ∧
    ((insertKeysIntoListRecordStore st keys).1.view.countProp =
      (insertKeysIntoListRecordStore st keys).1.view.keyListLines.length) ∧
    ((insertKeysIntoListRecordStore st keys).2 =
      (if keys.elements.filter (fun k => !st.source.containsKey k) = []
       then none
       else some ((badKeysJoin (keys.elements.filter
         (fun k => !st.source.containsKey k))).dropRight 2))) := by
  have hread := readListRecordStoreKeys_WF st.view.keyListLines
  have hspec := insertFold_spec st.source keys.elements
    (readListRecordStoreKeys st.view.keyListLines) ""
  have hmem : ∀ k,
      k ∈ (insertKeysIntoListRecordStore st keys).1.view.keyListLines ↔
      (k ∈ (readListRecordStoreKeys st.view.keyListLines).elements ∨
       (k ∈ keys.elements ∧ st.source.containsKey k = true)) := by
    intro k
    simp only [insertKeysIntoListRecordStore, hspec]
    show k ∈ (pushAll _ _).elements ↔ _
    rw [pushAll_elements _ hread, List.mem_append, mem_dedupFirst,
      List.mem_filter]
    constructor
    · rintro (h | ⟨⟨hk, hg⟩, -⟩)
      · exact Or.inl h
      · exact Or.inr ⟨hk, hg⟩
    · rintro (h | ⟨hk, hg⟩)
      · exact Or.inl h
      · by_cases hx : k ∈ (readListRecordStoreKeys
            st.view.keyListLines).elements
        · exact Or.inl hx
        · exact Or.inr ⟨⟨hk, hg⟩, hx⟩
  refine ⟨rfl, ?_, hmem, rfl, ?_⟩
  · intro k hk hg
    exact (hmem k).2 (Or.inr ⟨hk, hg⟩)
  · simp only [insertKeysIntoListRecordStore, hspec]
    show (if ("" ++ badKeysJoin _) = "" then none
      else some (("" ++ badKeysJoin _).dropRight 2)) = _
    rw [String.empty_append]
    cases hbad : keys.elements.filter (fun k => !st.source.containsKey k)
      with
    | nil => simp [badKeysJoin]
    | cons b bs =>
        rw [if_neg (badKeysJoin_ne_empty b bs), if_neg (by simp)]

/-- Witness for C1, the concrete scenario of the claim: a source store
with keys f1, f2 and f3, an empty list-view, and the batch f1, f4: the
view afterwards contains exactly f1 with count one, the source count is
unchanged, and f4 is reported as the invalid key. -/
theorem C1_insert_keys_partial_success_witness :
    (let st : LRSState :=
      ⟨⟨[], 0⟩, ⟨[("f1", [1]), ("f2", [2]), ("f3", [3])]⟩⟩
     let keys : OrderedSet := ⟨.FASTER, ["f1", "f4"], ["f4", "f1"]⟩
     ("f1" ∈ keys.elements → st.source.containsKey "f1" = true →
       "f1" ∈ (insertKeysIntoListRecordStore st keys).1.view.keyListLines) ∧
     ((insertKeysIntoListRecordStore st keys).1.view.keyListLines =
       ["f1"]) ∧
     ((insertKeysIntoListRecordStore st keys).1.view.countProp = 1) ∧
     ((insertKeysIntoListRecordStore st keys).2 = some "f4") ∧
     ((insertKeysIntoListRecordStore st keys).1.source.getCount = 3)) := by
  refine ⟨fun h1 h2 =>
    (C1_insert_keys_partial_success _ _).2.1 "f1" h1 h2, ?_, ?_, ?_, ?_⟩
  · decide
  · decide
  · decide
  · decide

/-! ## The write protocol of the key list -/

theorem runW_writeLines (s : WState) (ks : List String) :
    runW s (ks.map WStep.writeLine) =
      { s with temp := s.temp.map (fun t => t ++ ks) } := by
  induction ks generalizing s with
  | nil => simp [runW]
  | cons k ks ih =>
      rw [List.map_cons, runW, List.foldl_cons]
      show runW (applyW s (WStep.writeLine k)) (ks.map WStep.writeLine) = _
      rw [ih]
      simp only [applyW, Option.map_map]
      refine congrArg (fun t => WState.mk s.view t) ?_
      cases s.temp with
      | none => rfl
      | some t =>
          simp [Function.comp, List.append_assoc]

theorem runW_view_take (s : WState) (keys : OrderedSet) (n : Nat)
    (h : n ≤ keys.elements.length + 1) :
    (runW s ((writeSteps keys).take n)).view = s.view := by
  cases n with
  | zero => rfl
  | succ m =>
      have hm : m ≤ (keys.elements.map WStep.writeLine).length := by
        rw [List.length_map]
        exact Nat.succ_le_succ_iff.mp h
      rw [writeSteps, List.take_succ_cons,
        List.take_append_of_le_length hm, ← List.map_take, runW,
        List.foldl_cons]
      show (runW (applyW s WStep.mkTemp)
        ((keys.elements.take m).map WStep.writeLine)).view = s.view
      rw [runW_writeLines]
      rfl

theorem renameTemp_not_mem_take (keys : OrderedSet) (n : Nat)
    (h : n ≤ keys.elements.length + 1) :
    WStep.renameTemp ∉ (writeSteps keys).take n := by
  cases n with
  | zero => simp
  | succ m =>
      have hm : m ≤ (keys.elements.map WStep.writeLine).length := by
        rw [List.length_map]
        exact Nat.succ_le_succ_iff.mp h
      rw [writeSteps, List.take_succ_cons,
        List.take_append_of_le_length hm]
      intro hmem
      rcases List.mem_cons.1 hmem with hc | hc
      · cases hc
      · obtain ⟨k, -, hk⟩ :=
          List.mem_map.1 (List.take_subset _ _ hc)
        cases hk

theorem runW_writeSteps (s : WState) (keys : OrderedSet) :
    (runW s (writeSteps keys)).view =
      writeListRecordStoreKeys s.view keys := by
  have h1 : runW s (writeSteps keys) =
      runW (runW (applyW s WStep.mkTemp)
        (keys.elements.map WStep.writeLine))
        [WStep.renameTemp, WStep.setCount keys.size] := by
    rw [writeSteps, runW, List.foldl_cons, List.foldl_append]
    rfl
  rw [h1, runW_writeLines]
  rfl

/-- Claim C2, amended: any interruption of writeListRecordStoreKeys
strictly before the atomic rename — that is, any executed prefix of its
step sequence not containing the rename, which is exactly the prefixes of
length at most one plus the number of keys — leaves the prior key-list
file and Count property fully intact, and a completed run installs the
new key list together with the matching count.  The two are however
updated by two separate steps: only interruptions before the rename
leave them consistent, as the counterexample shows. -/
theorem C2_write_keys_atomic_rename (s : WState) (keys : OrderedSet)
    (n : Nat) (h : n ≤ keys.elements.length + 1) :
    WStep.renameTemp ∉ (writeSteps keys).take n ∧
    (runW s ((writeSteps keys).take n)).view = s.view ∧
    (runW s (writeSteps keys)).view =
      writeListRecordStoreKeys s.view keys :=
  ⟨renameTemp_not_mem_take keys n h, runW_view_take s keys n h,
   runW_writeSteps s keys⟩

/-- Witness for the amended C2: writing the keys a, b over a view holding
one old key, interrupted after three of the five steps. -/
theorem C2_write_keys_atomic_rename_witness :
    (3 ≤ (⟨.FASTER, ["a", "b"], ["b", "a"]⟩ :
        OrderedSet).elements.length + 1) ∧
    (WStep.renameTemp ∉
      (writeSteps ⟨.FASTER, ["a", "b"], ["b", "a"]⟩).take 3 ∧
     (runW ⟨⟨["old"], 1⟩, none⟩
       ((writeSteps ⟨.FASTER, ["a", "b"], ["b", "a"]⟩).take 3)).view =
       ⟨["old"], 1⟩ ∧
     (runW ⟨⟨["old"], 1⟩, none⟩
       (writeSteps ⟨.FASTER, ["a", "b"], ["b", "a"]⟩)).view =
       writeListRecordStoreKeys ⟨["old"], 1⟩
         ⟨.FASTER, ["a", "b"], ["b", "a"]⟩) :=
  ⟨by decide,
   C2_write_keys_atomic_rename ⟨⟨["old"], 1⟩, none⟩
     ⟨.FASTER, ["a", "b"], ["b", "a"]⟩ 3 (by decide)⟩

/-- Counterexample to claim C2 as stated: the claim that the key-list
file and the Count property are updated together or not at all fails at
the execution point just after the rename — the prefix of length four of
the step sequence for the keys a, b over a view holding one key with
count one: there the new two-key list is already installed while the
Count property still reads one, though a completed run would set two. -/
theorem C2_counterexample_count_lags_rename :
    ((runW ⟨⟨["old"], 1⟩, none⟩
        ((writeSteps ⟨.FASTER, ["a", "b"], ["b", "a"]⟩).take 4)).view.keyListLines =
      ["a", "b"]) ∧
    ((runW ⟨⟨["old"], 1⟩, none⟩
        ((writeSteps ⟨.FASTER, ["a", "b"], ["b", "a"]⟩).take 4)).view.countProp =
      1) ∧
    ((writeListRecordStoreKeys ⟨["old"], 1⟩
        ⟨.FASTER, ["a", "b"], ["b", "a"]⟩).countProp = 2) := by
  decide

/-! ## Hash-subject configuration validation -/

/-- Counterexample to claim C3 as stated: requesting a hash translation
store without selecting a hash subject is not a configuration error —
both procargs_merge and procargs_make accept the configuration and
silently default the subject to FILENAME hashing. -/
theorem C3_counterexample_translation_without_subject :
    (procargs_merge_checks ⟨"hash_rs", HashablePart.NOTHING,
        KeyFormat.DEFAULT, ["child_rs"], false⟩ =
      .ok ⟨"hash_rs", HashablePart.FILENAME, KeyFormat.FILENAME,
        ["child_rs"], false⟩) ∧
    (procargs_make_checks ⟨"hash_rs", HashablePart.NOTHING,
        KeyFormat.DEFAULT, RSKind.Default, false⟩ =
      .ok ⟨"hash_rs", HashablePart.FILENAME, KeyFormat.FILENAME,
        RSKind.Default, false⟩) :=
  ⟨rfl, rfl⟩

/-- Claim C3, amended: in both the merge and the make configuration
steps, selecting a hash subject without supplying a hash translation
store is rejected as a configuration error during argument processing,
before any store is created; conversely, requesting a hash translation
store without selecting a subject is accepted, the subject silently
defaulting to FILENAME hashing rather than being an error. -/
theorem C3_hash_subject_validation (cm : MergeConfig) (ck : MakeConfig) :
    (cm.hash_pathname = "" → cm.what_to_hash ≠ HashablePart.NOTHING →
      cm.child_rs ≠ [] → cm.destExists = false →
      procargs_merge_checks cm =
        .error "Specified hash method without -h.") ∧
    (ck.hash_pathname = "" → ck.what_to_hash ≠ HashablePart.NOTHING →
      procargs_make_checks ck =
        .error "Specified hash method without -h.") ∧
    (cm.hash_pathname ≠ "" → cm.what_to_hash = HashablePart.NOTHING →
      cm.child_rs ≠ [] → cm.destExists = false →
      ∃ r, procargs_merge_checks cm = .ok r ∧
        r.what_to_hash = HashablePart.FILENAME) ∧
    (ck.hash_pathname ≠ "" → ck.what_to_hash = HashablePart.NOTHING →
      ¬(ck.compress = true ∧ ck.kind = RSKind.List) →
      ∃ r, procargs_make_checks ck = .ok r ∧
        r.what_to_hash = HashablePart.FILENAME) := by
  refine ⟨?_, ?_, ?_, ?_⟩
  · intro h1 h2 h3 h4
    simp only [procargs_merge_checks]
    rw [if_neg h3, if_neg (by simp [h4]), if_pos ⟨h1, h2⟩]
  · intro h1 h2
    simp only [procargs_make_checks]
    rw [if_pos ⟨h1, h2⟩]
  · intro h1 h2 h3 h4
    have e : procargs_merge_checks cm = .ok { cm with
        hashed_key_format :=
          (if cm.hashed_key_format = KeyFormat.DEFAULT
           then KeyFormat.FILENAME else cm.hashed_key_format),
        what_to_hash := HashablePart.FILENAME } := by
      simp only [procargs_merge_checks]
      rw [if_neg h3, if_neg (by simp [h4]),
        if_neg (fun hc => h1 hc.1), if_pos ⟨h1, h2⟩]
    exact ⟨_, e, rfl⟩
  · intro h1 h2 h3
    have e : procargs_make_checks ck = .ok { ck with
        hashed_key_format :=
          (if ck.hashed_key_format = KeyFormat.DEFAULT
           then (match ck.what_to_hash with
                 | HashablePart.FILEPATH => KeyFormat.FILEPATH
                 | _ => KeyFormat.FILENAME)
           else ck.hashed_key_format),
        what_to_hash := HashablePart.FILENAME } := by
      simp only [procargs_make_checks]
      rw [if_neg (fun hc => h1 hc.1), if_neg h3, if_pos ⟨h1, h2⟩]
    exact ⟨_, e, rfl⟩

/-- Witness for C3: a merge selecting contents hashing with no -h store
and a make doing the same are both rejected with the source's
diagnostic. -/
theorem C3_hash_subject_validation_witness :
    (procargs_merge_checks ⟨"", HashablePart.FILECONTENTS,
        KeyFormat.DEFAULT, ["a"], false⟩ =
      .error "Specified hash method without -h.") ∧
    (procargs_make_checks ⟨"", HashablePart.FILECONTENTS,
        KeyFormat.DEFAULT, RSKind.Default, false⟩ =
      .error "Specified hash method without -h.") :=
  ⟨(C3_hash_subject_validation ⟨"", HashablePart.FILECONTENTS,
      KeyFormat.DEFAULT, ["a"], false⟩ ⟨"", HashablePart.FILECONTENTS,
      KeyFormat.DEFAULT, RSKind.Default, false⟩).1
        rfl (by decide) (by decide) rfl,
   (C3_hash_subject_validation ⟨"", HashablePart.FILECONTENTS,
      KeyFormat.DEFAULT, ["a"], false⟩ ⟨"", HashablePart.FILECONTENTS,
      KeyFormat.DEFAULT, RSKind.Default, false⟩).2.1
        rfl (by decide)⟩

/-! ## Exit status of the merge command -/

/-- Claim C8 evaluated at the failing input: a merge invocation whose
underlying merge call throws — here an ObjectExists while creating the
destination — prints its diagnostic line to standard error and
nevertheless exits with status zero, the catch block of the merge driver
falling through to the success return; this contradicts the claim that
every reported error yields a non-zero exit status.  The argument
processing failure path, by contrast, does exit non-zero. -/
theorem C8_merge_reports_error_but_exits_zero :
    (let out := mergeCmd "merged_rs"
        (.ok ⟨"", HashablePart.NOTHING, KeyFormat.FILENAME, ["a"],
          false⟩)
        (.error (.ObjectExists "merged_rs"))
     out.errLines = ["Could not create merged_rs - merged_rs"] ∧
     out.exit = EXIT_SUCCESS ∧ EXIT_SUCCESS = 0) ∧
    (mergeCmd "merged_rs" (.error "Missing required option (-a).")
        (.ok ())).exit = EXIT_FAILURE :=
  ⟨⟨rfl, rfl, rfl⟩, rfl⟩

/-! ## ObjectDoesNotExist as the end-of-iteration signal -/

theorem listLoop_odne (printed : List String) (recs : List Record)
    (m : String) :
    listLoop printed recs (.ObjectDoesNotExist m) =
      ⟨EXIT_SUCCESS, printed ++ recs.map Record.key, []⟩ := by
  induction recs generalizing printed with
  | nil => simp [listLoop]
  | cons r rs ih =>
      rw [listLoop, ih]
      simp

theorem listLoop_fail (printed : List String) (recs : List Record)
    (e : BEError) (he : e.isODNE = false) :
    listLoop printed recs e =
      ⟨EXIT_FAILURE, printed ++ recs.map Record.key,
       ["Could not list RecordStore - " ++ e.what]⟩ := by
  induction recs generalizing printed with
  | nil => cases e <;> simp_all [listLoop, BEError.isODNE]
  | cons r rs ih =>
      rw [listLoop, ih]
      simp

theorem mergeStore_of_odne (digest : List Nat → String)
    (wth : HashablePart) (st : MergeState × String) (s : SourceRun)
    (st' : MergeState × String) (h : s.terminal.isODNE = true)
    (hrec : mergeRecs digest wth st s.recs = .ok st') :
    mergeStore digest wth st s = .ok st' := by
  unfold mergeStore
  rw [hrec]
  cases ht : s.terminal <;> simp_all [BEError.isODNE]

theorem mergeStore_of_fail (digest : List Nat → String)
    (wth : HashablePart) (st : MergeState × String) (s : SourceRun)
    (st' : MergeState × String) (h : s.terminal.isODNE = false)
    (hrec : mergeRecs digest wth st s.recs = .ok st') :
    mergeStore digest wth st s = .error s.terminal := by
  unfold mergeStore
  rw [hrec]
  cases ht : s.terminal <;> simp_all [BEError.isODNE]

theorem diffCollectKeys_odne (recs : List Record) (keys : List String)
    (m : String) :
    diffCollectKeys keys recs (.ObjectDoesNotExist m) =
      .ok (keys ++ recs.map Record.key) := by
  induction recs generalizing keys with
  | nil => simp [diffCollectKeys]
  | cons r rs ih =>
      rw [diffCollectKeys, ih]
      simp

theorem diffCollectKeys_fail (recs : List Record) (keys : List String)
    (e : BEError) (he : e.isODNE = false) :
    diffCollectKeys keys recs e = .error e := by
  induction recs generalizing keys with
  | nil => cases e <;> simp_all [diffCollectKeys, BEError.isODNE]
  | cons r rs ih =>
      rw [diffCollectKeys]
      exact ih _

theorem lsrecstorLoop_odne (recs : List Record) (printed : List String)
    (m : String) :
    lsrecstorLoop printed recs (.ObjectDoesNotExist m) =
      .ok ⟨EXIT_SUCCESS, printed ++ recs.map Record.key, []⟩ := by
  induction recs generalizing printed with
  | nil => simp [lsrecstorLoop]
  | cons r rs ih =>
      rw [lsrecstorLoop, ih]
      simp

theorem lsrecstorLoop_fail (recs : List Record) (printed : List String)
    (e : BEError) (he : e.isODNE = false) (out : CmdResult)
    (hout : lsrecstorLoop printed recs e = .ok out) :
    out.exit = EXIT_FAILURE := by
  induction recs generalizing printed with
  | nil =>
      cases e with
      | ObjectDoesNotExist m => simp [BEError.isODNE] at he
      | StrategyError m =>
          rw [lsrecstorLoop] at hout
          cases hout
          rfl
      | ObjectExists m => simp [lsrecstorLoop] at hout
      | FileError m => simp [lsrecstorLoop] at hout
      | ParameterError m => simp [lsrecstorLoop] at hout
  | cons r rs ih =>
      rw [lsrecstorLoop] at hout
      exact ih _ hout

theorem printKeysLoop_odne (ts : Nat) (recs : List Record)
    (printed : List String) (m : String) :
    printKeysLoop ts printed recs (.ObjectDoesNotExist m) =
      (printed ++
        (recs.filter (fun r => decide (r.data.length = ts))).map
          Record.key, []) := by
  induction recs generalizing printed with
  | nil => simp [printKeysLoop]
  | cons r rs ih =>
      rw [printKeysLoop]
      by_cases hl : r.data.length = ts
      · rw [if_pos hl, ih, List.filter_cons_of_pos (by simpa using hl)]
        simp
      · rw [if_neg hl, ih, List.filter_cons_of_neg (by simpa using hl)]

theorem printKeysLoop_fail (ts : Nat) (recs : List Record)
    (printed : List String) (e : BEError) (he : e.isODNE = false) :
    (printKeysLoop ts printed recs e).2 = [e.what] := by
  induction recs generalizing printed with
  | nil => cases e <;> simp_all [printKeysLoop, BEError.isODNE]
  | cons r rs ih =>
      rw [printKeysLoop]
      split
      · exact ih _
      · exact ih _

/-- Counterexample to claim C7 as stated: not every sequencing loop of
the toolchain treats ObjectDoesNotExist as the normal end-of-iteration
signal, and ObjectDoesNotExist is not swallowed only inside iteration
loops.  In the extract range loop, sequencing a one-record store for
the range one to two hits ObjectDoesNotExist at index two and the
action fails with a diagnostic instead of ending normally; and in
extract's single-key path, the ObjectDoesNotExist from reading the key
is silently consumed outside any loop when the hashed-key fallback
succeeds. -/
theorem C7_counterexample_extract_range_and_fallback :
    (extractRangeCmd 1 2 ⟨[⟨"k1", [1]⟩], .ObjectDoesNotExist ""⟩ =
      ⟨EXIT_FAILURE, ["k1"], ["Could not read key 2 - ."]⟩) ∧
    (rsReadE [("Hk", [9])] "k" = .error (.ObjectDoesNotExist "k")) ∧
    (extractReadKey (fun k => "H" ++ k) [("Hk", [9])] "k" =
      .ok [9]) :=
  ⟨rfl, rfl, rfl⟩

/-- Claim C7, amended: in the key-enumeration loops of the toolchain
and bindings — the list action, the Python iterator, the merge
traversal, diff's key collection, the listing loops of lsrecstor and
countRecordsOfSize, the dump loop of dmprecstor, the per-store merge
loop of mrgrecstor, and the two read-all loops of the R binding — an
ObjectDoesNotExist raised by sequencing is caught and treated as the
normal end-of-iteration signal, while any other exception from
sequencing is a failure: reported with a failure exit where the loop
catches it, propagated to the caller where it does not.  The claim's
universal however fails for the extract range loops, which report ANY
exception from sequencing — ObjectDoesNotExist included — as a
failure; and ObjectDoesNotExist is also silently swallowed outside any
iteration loop, in extract's hashed-key fallback when the second read
succeeds. -/
theorem C7_odne_ends_iteration :
    (∀ (recs : List Record) (m : String),
      listRecordStore ⟨recs, .ObjectDoesNotExist m⟩ =
        ⟨EXIT_SUCCESS, recs.map Record.key, []⟩) ∧
    (∀ (recs : List Record) (e : BEError), e.isODNE = false →
      listRecordStore ⟨recs, e⟩ =
        ⟨EXIT_FAILURE, recs.map Record.key,
         ["Could not list RecordStore - " ++ e.what]⟩) ∧
    (∀ r : Record, RSObject_iternext (.ok r) = .item r) ∧
    (∀ m : String,
      RSObject_iternext (.error (.ObjectDoesNotExist m)) =
        .stopIteration) ∧
    (∀ e : BEError, e.isODNE = false →
      RSObject_iternext (.error e) = .exc e) ∧
    (∀ (digest : List Nat → String) (wth : HashablePart)
       (st st' : MergeState × String) (s : SourceRun)
       (rest : List SourceRun), s.terminal.isODNE = true →
      mergeRecs digest wth st s.recs = .ok st' →
      mergeStores digest wth st (s :: rest) =
        mergeStores digest wth st' rest) ∧
    (∀ (digest : List Nat → String) (wth : HashablePart)
       (st st' : MergeState × String) (s : SourceRun)
       (rest : List SourceRun), s.terminal.isODNE = false →
      mergeRecs digest wth st s.recs = .ok st' →
      mergeStores digest wth st (s :: rest) = .error s.terminal) ∧
    (∀ (recs : List Record) (keys : List String) (m : String),
      diffCollectKeys keys recs (.ObjectDoesNotExist m) =
        .ok (keys ++ recs.map Record.key)) ∧
    (∀ (recs : List Record) (keys : List String) (e : BEError),
      e.isODNE = false → diffCollectKeys keys recs e = .error e) ∧
    (∀ (recs : List Record) (printed : List String) (m : String),
      lsrecstorLoop printed recs (.ObjectDoesNotExist m) =
        .ok ⟨EXIT_SUCCESS, printed ++ recs.map Record.key, []⟩) ∧
    (∀ (recs : List Record) (printed : List String) (e : BEError),
      e.isODNE = false → ∀ out : CmdResult,
      lsrecstorLoop printed recs e = .ok out →
      out.exit = EXIT_FAILURE) ∧
    (∀ (ts : Nat) (recs : List Record) (printed : List String)
       (m : String),
      printKeysLoop ts printed recs (.ObjectDoesNotExist m) =
        (printed ++
          (recs.filter (fun r => decide (r.data.length = ts))).map
            Record.key, [])) ∧
    (∀ (ts : Nat) (recs : List Record) (printed : List String)
       (e : BEError), e.isODNE = false →
      (printKeysLoop ts printed recs e).2 = [e.what]) ∧
    (∀ (first last curr : Nat) (dumped : List String) (m : String),
      dmprecstorLoop first last curr dumped [] (.ObjectDoesNotExist m) =
        .ok ⟨EXIT_SUCCESS, dumped, []⟩) ∧
    (∀ (first last curr : Nat) (dumped : List String) (e : BEError),
      e.isODNE = false → ∀ out : CmdResult,
      dmprecstorLoop first last curr dumped [] e = .ok out →
      out.exit = EXIT_FAILURE) ∧
    (∀ (dest : RSContents) (m : String),
      mrgrecstorLoop dest [] (.ObjectDoesNotExist m) =
        .ok (EXIT_SUCCESS, dest, [])) ∧
    (∀ (dest : RSContents) (e : BEError), e.isODNE = false →
      ∀ out : Nat × RSContents × List String,
      mrgrecstorLoop dest [] e = .ok out → out.1 = EXIT_FAILURE) ∧
    (∀ (count : Nat) (m : String),
      readAllKeysR count ⟨[], .ObjectDoesNotExist m⟩ = .ok []) ∧
    (∀ (count : Nat) (e : BEError), e.isODNE = false →
      readAllKeysR count ⟨[], e⟩ = .error e) ∧
    (∀ (n : Nat) (keys : List String) (m : String),
      readAllKeysRLoop (Nat.succ n) keys [] (.ObjectDoesNotExist m) =
        .ok keys) ∧
    (∀ (n : Nat) (keys : List String) (e : BEError),
      e.isODNE = false →
      readAllKeysRLoop (Nat.succ n) keys [] e = .error e) ∧
    (∀ (count : Nat) (m : String),
      readAllKeysAndDataR count ⟨[], .ObjectDoesNotExist m⟩ =
        .ok []) ∧
    (∀ (count : Nat) (e : BEError), e.isODNE = false →
      readAllKeysAndDataR count ⟨[], e⟩ = .error e) ∧
    (∀ (n : Nat) (acc : List (String × List Nat)) (m : String),
      readAllRecsRLoop (Nat.succ n) acc [] (.ObjectDoesNotExist m) =
        .ok acc) ∧
    (∀ (n : Nat) (acc : List (String × List Nat)) (e : BEError),
      e.isODNE = false →
      readAllRecsRLoop (Nat.succ n) acc [] e = .error e) ∧
    (∀ (last i : Nat) (outs : List String) (terminal : BEError),
      i ≤ last →
      extractRangeLoop last i outs [] terminal =
        ⟨EXIT_FAILURE, outs,
         ["Could not read key " ++ toString i ++ " - " ++
          terminal.what ++ "."]⟩) ∧
    (∀ (first last n : Nat) (terminal : BEError),
      extractSkipLoop first last (Nat.succ n) [] terminal =
        ⟨EXIT_FAILURE, [],
         ["Could not sequence to record " ++ toString first]⟩) ∧
    (∀ (digest : String → String) (l : RSContents) (key : String)
       (v : List Nat), rsRead l key = none →
      rsRead l (digest key) = some v →
      extractReadKey digest l key = .ok v) := by
  refine ⟨fun recs m => listLoop_odne [] recs m,
    fun recs e he => listLoop_fail [] recs e he,
    fun r => rfl, fun m => rfl, ?_, ?_, ?_,
    fun recs keys m => diffCollectKeys_odne recs keys m,
    fun recs keys e he => diffCollectKeys_fail recs keys e he,
    fun recs printed m => lsrecstorLoop_odne recs printed m,
    fun recs printed e he out hout =>
      lsrecstorLoop_fail recs printed e he out hout,
    fun ts recs printed m => printKeysLoop_odne ts recs printed m,
    fun ts recs printed e he => printKeysLoop_fail ts recs printed e he,
    fun first last curr dumped m => rfl, ?_,
    fun dest m => rfl, ?_,
    fun count m => rfl, ?_,
    fun n keys m => rfl, ?_,
    fun count m => rfl, ?_,
    fun n acc m => rfl, ?_,
    ?_,
    fun first last n terminal => rfl,
    ?_⟩
  · intro e he
    cases e <;> simp_all [RSObject_iternext, BEError.isODNE]
  · intro digest wth st st' s rest h hrec
    rw [mergeStores, mergeStore_of_odne digest wth st s st' h hrec]
  · intro digest wth st st' s rest h hrec
    rw [mergeStores, mergeStore_of_fail digest wth st s st' h hrec]
  · intro first last curr dumped e he out hout
    cases e with
    | ObjectDoesNotExist m => simp [BEError.isODNE] at he
    | StrategyError m =>
        rw [dmprecstorLoop] at hout
        cases hout
        rfl
    | ObjectExists m => simp [dmprecstorLoop] at hout
    | FileError m => simp [dmprecstorLoop] at hout
    | ParameterError m => simp [dmprecstorLoop] at hout
  · intro dest e he out hout
    cases e with
    | ObjectDoesNotExist m => simp [BEError.isODNE] at he
    | StrategyError m =>
        rw [mrgrecstorLoop] at hout
        cases hout
        rfl
    | ObjectExists m => simp [mrgrecstorLoop] at hout
    | FileError m => simp [mrgrecstorLoop] at hout
    | ParameterError m => simp [mrgrecstorLoop] at hout
  · intro count e he
    cases e <;> simp_all [readAllKeysR, BEError.isODNE]
  · intro n keys e he
    cases e <;> simp_all [readAllKeysRLoop, BEError.isODNE]
  · intro count e he
    cases e <;> simp_all [readAllKeysAndDataR, BEError.isODNE]
  · intro n acc e he
    cases e <;> simp_all [readAllRecsRLoop, BEError.isODNE]
  · intro last i outs terminal hi
    rw [extractRangeLoop, if_neg (Nat.not_lt.2 hi)]
  · intro digest l key v h1 h2
    rw [extractReadKey, rsReadE, h1, rsReadE, h2]

/-- Witness for the amended C7 at concrete stores: exhaustion versus a
StrategyError for the list action, the iterator, the merge traversal,
diff's collection, lsrecstor, countRecordsOfSize, dmprecstor,
mrgrecstor and the R loops, plus the extract range loop failing on
exhaustion and the fallback swallowing an ObjectDoesNotExist. -/
theorem C7_odne_ends_iteration_witness :
    (listRecordStore ⟨[⟨"k1", [1]⟩, ⟨"k2", [2]⟩],
        .ObjectDoesNotExist ""⟩ =
      ⟨EXIT_SUCCESS, ["k1", "k2"], []⟩) ∧
    (listRecordStore ⟨[⟨"k1", [1]⟩], .StrategyError "disk"⟩ =
      ⟨EXIT_FAILURE, ["k1"],
       ["Could not list RecordStore - " ++ "disk"]⟩) ∧
    (RSObject_iternext (.error (.ObjectDoesNotExist "")) =
      .stopIteration) ∧
    (RSObject_iternext (.error (.StrategyError "disk")) =
      .exc (.StrategyError "disk")) ∧
    (mergeStores (fun _ => "h") HashablePart.FILENAME (⟨[], []⟩, "")
        [⟨[⟨"k1", [1]⟩], .ObjectDoesNotExist ""⟩] =
      mergeStores (fun _ => "h") HashablePart.FILENAME
        (⟨[("h", [1])], [("h", strBytes "k1" ++ [0])]⟩, "h") []) ∧
    (mergeStores (fun _ => "h") HashablePart.FILENAME (⟨[], []⟩, "")
        [⟨[⟨"k1", [1]⟩], .StrategyError "disk"⟩] =
      .error (.StrategyError "disk")) ∧
    (diffCollectKeys [] [⟨"k1", [1]⟩] (.ObjectDoesNotExist "") =
      .ok ["k1"]) ∧
    (diffCollectKeys [] [⟨"k1", [1]⟩] (.StrategyError "disk") =
      .error (.StrategyError "disk")) ∧
    (lsrecstorLoop [] [⟨"k1", [1]⟩] (.ObjectDoesNotExist "") =
      .ok ⟨EXIT_SUCCESS, ["k1"], []⟩) ∧
    (∀ out : CmdResult,
      lsrecstorLoop [] [⟨"k1", [1]⟩] (.StrategyError "disk") =
        .ok out → out.exit = EXIT_FAILURE) ∧
    (printKeysLoop 1 [] [⟨"k1", [1]⟩, ⟨"k2", [1, 2]⟩]
        (.ObjectDoesNotExist "") = (["k1"], [])) ∧
    ((printKeysLoop 1 [] [⟨"k1", [1]⟩]
        (.StrategyError "disk")).2 = ["disk"]) ∧
    (dmprecstorLoop 1 2 3 ["k1"] [] (.ObjectDoesNotExist "") =
      .ok ⟨EXIT_SUCCESS, ["k1"], []⟩) ∧
    (∀ out : CmdResult,
      dmprecstorLoop 1 2 3 ["k1"] [] (.StrategyError "disk") =
        .ok out → out.exit = EXIT_FAILURE) ∧
    (mrgrecstorLoop [("a", [1])] [] (.ObjectDoesNotExist "") =
      .ok (EXIT_SUCCESS, [("a", [1])], [])) ∧
    (readAllKeysR 3 ⟨[], .ObjectDoesNotExist ""⟩ = .ok []) ∧
    (readAllKeysRLoop 2 ["k1"] [] (.StrategyError "disk") =
      .error (.StrategyError "disk")) ∧
    (readAllRecsRLoop 2 [("k1", [1])] [] (.ObjectDoesNotExist "") =
      .ok [("k1", [1])]) ∧
    (extractRangeLoop 2 2 ["k1"] [] (.ObjectDoesNotExist "") =
      ⟨EXIT_FAILURE, ["k1"], ["Could not read key 2 - ."]⟩) ∧
    (extractReadKey (fun k => "H" ++ k) [("Hk", [9])] "k" =
      .ok [9]) := by
  have h := C7_odne_ends_iteration
  refine ⟨h.1 [⟨"k1", [1]⟩, ⟨"k2", [2]⟩] "",
    h.2.1 [⟨"k1", [1]⟩] (.StrategyError "disk") rfl,
    h.2.2.2.1 "",
    h.2.2.2.2.1 (.StrategyError "disk") rfl,
    h.2.2.2.2.2.1 (fun _ => "h") HashablePart.FILENAME (⟨[], []⟩, "")
      (⟨[("h", [1])], [("h", strBytes "k1" ++ [0])]⟩, "h")
      ⟨[⟨"k1", [1]⟩], .ObjectDoesNotExist ""⟩ [] rfl rfl,
    h.2.2.2.2.2.2.1 (fun _ => "h") HashablePart.FILENAME (⟨[], []⟩, "")
      (⟨[("h", [1])], [("h", strBytes "k1" ++ [0])]⟩, "h")
      ⟨[⟨"k1", [1]⟩], .StrategyError "disk"⟩ [] rfl rfl,
    h.2.2.2.2.2.2.2.1 [⟨"k1", [1]⟩] [] "",
    h.2.2.2.2.2.2.2.2.1 [⟨"k1", [1]⟩] [] (.StrategyError "disk") rfl,
    h.2.2.2.2.2.2.2.2.2.1 [⟨"k1", [1]⟩] [] "",
    fun out hout => h.2.2.2.2.2.2.2.2.2.2.1 [⟨"k1", [1]⟩] []
      (.StrategyError "disk") rfl out hout,
    h.2.2.2.2.2.2.2.2.2.2.2.1 1 [⟨"k1", [1]⟩, ⟨"k2", [1, 2]⟩] [] "",
    h.2.2.2.2.2.2.2.2.2.2.2.2.1 1 [⟨"k1", [1]⟩] []
      (.StrategyError "disk") rfl,
    h.2.2.2.2.2.2.2.2.2.2.2.2.2.1 1 2 3 ["k1"] "",
    fun out hout => h.2.2.2.2.2.2.2.2.2.2.2.2.2.2.1 1 2 3 ["k1"]
      (.StrategyError "disk") rfl out hout,
    h.2.2.2.2.2.2.2.2.2.2.2.2.2.2.2.1 [("a", [1])] "",
    h.2.2.2.2.2.2.2.2.2.2.2.2.2.2.2.2.2.1 3 "",
    h.2.2.2.2.2.2.2.2.2.2.2.2.2.2.2.2.2.2.2.2.1 1 ["k1"]
      (.StrategyError "disk") rfl,
    h.2.2.2.2.2.2.2.2.2.2.2.2.2.2.2.2.2.2.2.2.2.2.2.1 1 [("k1", [1])]
      "",
    h.2.2.2.2.2.2.2.2.2.2.2.2.2.2.2.2.2.2.2.2.2.2.2.2.2.1 2 2 ["k1"]
      (.ObjectDoesNotExist "") (by decide),
    h.2.2.2.2.2.2.2.2.2.2.2.2.2.2.2.2.2.2.2.2.2.2.2.2.2.2.2
      (fun k => "H" ++ k) [("Hk", [9])] "k" [9] rfl rfl⟩

/-! ## The merged store and its hash translation -/

theorem rsInsert_ok (l : RSContents) (k : String) (d : List Nat)
    (l' : RSContents) (h : rsInsert l k d = .ok l') :
    k ∉ l.map Prod.fst ∧ l' = l ++ [(k, d)] := by
  unfold rsInsert at h
  by_cases hk : k ∈ l.map Prod.fst
  · rw [if_pos hk] at h
    cases h
  · rw [if_neg hk] at h
    cases h
    exact ⟨hk, rfl⟩

theorem rsRead_append_left (l l' : RSContents) (k : String)
    (v : List Nat) (h : rsRead l k = some v) :
    rsRead (l ++ l') k = some v := by
  induction l with
  | nil => cases h
  | cons p ps ih =>
      rw [List.cons_append, rsRead]
      rw [rsRead] at h
      by_cases hp : p.1 = k
      · rwa [if_pos hp] at h ⊢
      · rw [if_neg hp] at h ⊢
        exact ih h

theorem rsRead_append_right (l l' : RSContents) (k : String)
    (h : k ∉ l.map Prod.fst) : rsRead (l ++ l') k = rsRead l' k := by
  induction l with
  | nil => rfl
  | cons p ps ih =>
      rw [List.cons_append, rsRead,
        if_neg (fun hc => h (by simp [hc]))]
      exact ih (fun hc => h (List.mem_cons_of_mem _ hc))

theorem computeHash_of_selected (digest : List Nat → String)
    (wth : HashablePart) (prev : String) (r : Record)
    (hw : wth ≠ HashablePart.NOTHING) :
    computeHash digest wth prev r = subjectHash digest wth r := by
  cases wth <;> simp_all [computeHash, subjectHash]

theorem MergeGood.mono (digest : List Nat → String)
    (wth : HashablePart) (R R' : Record → Prop) (st : MergeState)
    (h : MergeGood digest wth R st) (himp : ∀ x, R x → R' x) :
    MergeGood digest wth R' st := by
  refine ⟨h.1, ?_⟩
  intro p hp
  obtain ⟨r, hr, h1, h2, h3⟩ := h.2 p hp
  exact ⟨r, himp r hr, h1, h2, h3⟩

theorem mergeOne_good (digest : List Nat → String)
    (wth : HashablePart) (R : Record → Prop)
    (st : MergeState) (prev : String) (r : Record)
    (st' : MergeState) (h' : String)
    (hw : wth ≠ HashablePart.NOTHING)
    (hg : MergeGood digest wth R st)
    (hstep : mergeOne digest wth (st, prev) r = .ok (st', h')) :
    MergeGood digest wth (fun x => R x ∨ x = r) st' := by
  unfold mergeOne at hstep
  rw [computeHash_of_selected digest wth prev r hw] at hstep
  dsimp only at hstep
  cases hm : rsInsert st.merged (subjectHash digest wth r) r.data with
  | error e => rw [hm] at hstep; cases hstep
  | ok m =>
      rw [hm] at hstep
      cases hh : rsInsert st.hashTrans (subjectHash digest wth r)
          (strBytes r.key ++ [0]) with
      | error e => rw [hh] at hstep; cases hstep
      | ok ht =>
          rw [hh] at hstep
          cases hstep
          obtain ⟨hmk, hme⟩ := rsInsert_ok _ _ _ _ hm
          obtain ⟨hhk, hhe⟩ := rsInsert_ok _ _ _ _ hh
          subst hme
          subst hhe
          constructor
          · simp only [List.map_append, List.map_cons, List.map_nil]
            rw [hg.1]
          · intro p hp
            rcases List.mem_append.1 hp with hp | hp
            · obtain ⟨x, hx, h1, h2, h3⟩ := hg.2 p hp
              exact ⟨x, Or.inl hx, h1, h2,
                rsRead_append_left _ _ _ _ h3⟩
            · rw [List.mem_singleton] at hp
              subst hp
              refine ⟨r, Or.inr rfl, rfl, rfl, ?_⟩
              rw [rsRead_append_right _ _ _ hhk, rsRead, if_pos rfl]

theorem mergeRecs_good (digest : List Nat → String)
    (wth : HashablePart) (recs : List Record) (R : Record → Prop)
    (st : MergeState × String) (stp : MergeState × String)
    (hw : wth ≠ HashablePart.NOTHING)
    (hg : MergeGood digest wth R st.1)
    (hrun : mergeRecs digest wth st recs = .ok stp) :
    MergeGood digest wth (fun x => R x ∨ x ∈ recs) stp.1 := by
  induction recs generalizing st R with
  | nil =>
      rw [mergeRecs] at hrun
      cases hrun
      exact MergeGood.mono _ _ _ _ _ hg (fun x hx => Or.inl hx)
  | cons r rs ih =>
      rw [mergeRecs] at hrun
      cases hstep : mergeOne digest wth st r with
      | error e => rw [hstep] at hrun; cases hrun
      | ok st1 =>
          rw [hstep] at hrun
          have hg1 : MergeGood digest wth (fun x => R x ∨ x = r)
              st1.1 := by
            obtain ⟨s1, p1⟩ := st
            obtain ⟨t1, q1⟩ := st1
            exact mergeOne_good digest wth R s1 p1 r t1 q1 hw hg hstep
          have := ih (fun x => R x ∨ x = r) st1 hg1 hrun
          refine MergeGood.mono _ _ _ _ _ this ?_
          rintro x ((hx | rfl) | hx)
          · exact Or.inl hx
          · exact Or.inr (List.mem_cons_self _ _)
          · exact Or.inr (List.mem_cons_of_mem _ hx)

theorem mergeStores_good (digest : List Nat → String)
    (wth : HashablePart) (srcs : List SourceRun) (R : Record → Prop)
    (st : MergeState × String) (stp : MergeState × String)
    (hw : wth ≠ HashablePart.NOTHING)
    (hg : MergeGood digest wth R st.1)
    (hrun : mergeStores digest wth st srcs = .ok stp) :
    MergeGood digest wth
      (fun x => R x ∨ ∃ s ∈ srcs, x ∈ s.recs) stp.1 := by
  induction srcs generalizing st R with
  | nil =>
      rw [mergeStores] at hrun
      cases hrun
      exact MergeGood.mono _ _ _ _ _ hg (fun x hx => Or.inl hx)
  | cons s ss ih =>
      rw [mergeStores] at hrun
      cases hs : mergeStore digest wth st s with
      | error e => rw [hs] at hrun; cases hrun
      | ok st1 =>
          rw [hs] at hrun
          unfold mergeStore at hs
          cases hr : mergeRecs digest wth st s.recs with
          | error e => rw [hr] at hs; cases hs
          | ok st2 =>
              rw [hr] at hs
              have hst12 : st2 = st1 := by
                cases ht : s.terminal <;> rw [ht] at hs <;>
                  first
                    | (cases hs; rfl)
                    | cases hs
              subst hst12
              have hg1 := mergeRecs_good digest wth s.recs R st st2
                hw hg hr
              have := ih (fun x => R x ∨ x ∈ s.recs) st2 hg1 hrun
              refine MergeGood.mono _ _ _ _ _ this ?_
              rintro x ((hx | hx) | ⟨s', hs', hx⟩)
              · exact Or.inl hx
              · exact Or.inr ⟨s, List.mem_cons_self _ _, hx⟩
              · exact Or.inr ⟨s', List.mem_cons_of_mem _ hs', hx⟩

theorem bytesStr_strBytes (k : String) : bytesStr (strBytes k) = k := by
  cases k with
  | mk data =>
      refine congrArg String.mk ?_
      show List.map Char.ofNat (List.map Char.toNat data) = data
      rw [List.map_map]
      have hcomp : Char.ofNat ∘ Char.toNat = id := funext Char.ofNat_toNat
      rw [hcomp, List.map_id]

/-- Claim C4: in every successful run of mergeAndHashRecordStores with a
selected hash subject, the destination and the hash-translation store
hold exactly the same hash keys, and every record of the destination is
keyed by the hash of the selected subject — digest of the record's
contents for FILECONTENTS, digest of its key for FILENAME and FILEPATH —
of some source record whose data it carries, while the translation store
maps that same hash to the original key (null-terminated), from which
the key is recoverable by decoding the bytes. -/
theorem C4_merge_hash_translation (digest : List Nat → String)
    (wth : HashablePart) (srcs : List SourceRun) (st : MergeState)
    (hw : wth ≠ HashablePart.NOTHING)
    (hrun : mergeAndHashRecordStores digest wth srcs = .ok st) :
    (st.merged.map Prod.fst = st.hashTrans.map Prod.fst) ∧
    (∀ p ∈ st.merged, ∃ r : Record, (∃ s ∈ srcs, r ∈ s.recs) ∧
      p.1 = subjectHash digest wth r ∧ p.2 = r.data ∧
      rsRead st.hashTrans p.1 = some (strBytes r.key ++ [0]) ∧
      bytesStr (strBytes r.key) = r.key) := by
  unfold mergeAndHashRecordStores at hrun
  cases hms : mergeStores digest wth (⟨[], []⟩, "") srcs with
  | error e => rw [hms] at hrun; cases hrun
  | ok stp =>
      rw [hms] at hrun
      cases hrun
      have hg0 : MergeGood digest wth (fun _ => False)
          (⟨[], []⟩ : MergeState) := by
        refine ⟨rfl, ?_⟩
        intro p hp
        cases hp
      have hgood := mergeStores_good digest wth srcs (fun _ => False)
        (⟨[], []⟩, "") stp hw hg0 hms
      refine ⟨hgood.1, ?_⟩
      intro p hp
      obtain ⟨r, hr, h1, h2, h3⟩ := hgood.2 p hp
      rcases hr with hf | hr
      · cases hf
      · exact ⟨r, hr, h1, h2, h3, bytesStr_strBytes r.key⟩

/-- Witness for C4: merging two single-record stores under FILENAME
hashing with a digest that prepends a marker to the key bytes. -/
theorem C4_merge_hash_translation_witness :
    (HashablePart.FILENAME ≠ HashablePart.NOTHING) ∧
    (let digest := fun l : List Nat => bytesStr (7 :: l)
     let srcs : List SourceRun :=
       [⟨[⟨"a", [10]⟩], .ObjectDoesNotExist ""⟩,
        ⟨[⟨"b", [20]⟩], .ObjectDoesNotExist ""⟩]
     ∃ st : MergeState,
       mergeAndHashRecordStores digest HashablePart.FILENAME srcs =
         .ok st ∧
       ((st.merged.map Prod.fst = st.hashTrans.map Prod.fst) ∧
        (∀ p ∈ st.merged, ∃ r : Record,
          (∃ s ∈ srcs, r ∈ s.recs) ∧
          p.1 = subjectHash digest HashablePart.FILENAME r ∧
          p.2 = r.data ∧
          rsRead st.hashTrans p.1 = some (strBytes r.key ++ [0]) ∧
          bytesStr (strBytes r.key) = r.key))) := by
  refine ⟨by decide, ?_⟩
  refine ⟨⟨[(bytesStr (7 :: strBytes "a"), [10]),
            (bytesStr (7 :: strBytes "b"), [20])],
           [(bytesStr (7 :: strBytes "a"), strBytes "a" ++ [0]),
            (bytesStr (7 :: strBytes "b"), strBytes "b" ++ [0])]⟩,
    ?_, ?_⟩
  · rfl
  · exact C4_merge_hash_translation _ HashablePart.FILENAME _ _
      (by decide) rfl

end RSTool
